import Mathlib

/-!
# Zurts mini game: the arena engine of `zurtsMiniGame.cpp`

A shallow embedding of the simulation core of the program (classes `Zurt`,
`Player`, `Arena` and the auxiliary functions `randInt`, `attemptMove`,
`recommendMove`, `computeDanger`), followed by theorems about it.

Conventions of the embedding.

* A C++ `int` is an `Int`: in a reachable state no value leaves the range of
  a 32-bit integer (coordinates lie between 0 and 21, counts and dangers are
  at most 101).
* A call that ends in `exit(1)` (the fatal branch of `checkPos` and of the
  constructors) returns `none`; a call that returns normally returns `some`.
* The back pointer `m_arena` of a zurt or of the player becomes an explicit
  `Arena` argument.
* `m_zurts[0 .. m_nZurts-1]` is the list `m_zurts`; `m_nZurts` is its length.
* `rand()` reads the head of an infinite stream of naturals, which is passed
  around explicitly.
-/

namespace Zurts

/-! ## Manifest constants -/

def MAXROWS : Int := 20
def MAXCOLS : Int := 20
def MAXZURTS : Int := 100
def ZURT_HEALTH : Int := 3

def NORTH : Int := 0
def EAST : Int := 1
def SOUTH : Int := 2
def WEST : Int := 3
def NUMDIRS : Int := 4

def EMPTY : Int := 0
def WALL : Int := 1

/-! ## Random numbers -/

/-- The future results of `rand()`, in the order in which they are drawn. -/
abbrev Rng := Nat → Nat

/-- One call of `rand()`: the value drawn and the rest of the stream. -/
def rand (g : Rng) : Nat × Rng := (g 0, fun n => g (n + 1))

/-- The function `randInt(lowest, highest)`. -/
def randInt (lowest highest : Int) (g : Rng) : Int × Rng :=
  let lo := if highest < lowest then highest else lowest
  let hi := if highest < lowest then lowest else highest
  let d := rand g
  (lo + ((d.1 : Int) % (hi - lo + 1)), d.2)

/-! ## Type definitions -/

/-- The data members of class `Zurt` (without the back pointer). -/
structure Zurt where
  m_row : Int
  m_col : Int
  m_color : Char
  m_health : Int
deriving DecidableEq

/-- The data members of class `Player` (without the back pointer). -/
structure Player where
  m_row : Int
  m_col : Int
  m_dead : Bool
deriving DecidableEq

/-- The data members of class `Arena`.  `m_grid i j` is the C++ array element
`m_grid[i][j]`, so the status of cell `(r,c)` is `m_grid (r-1) (c-1)`. -/
structure Arena where
  m_grid : Int → Int → Int
  m_rows : Int
  m_cols : Int
  m_player : Option Player
  m_zurts : List Zurt

/-! ## Arena accessors -/

def Arena.rows (a : Arena) : Int := a.m_rows

def Arena.cols (a : Arena) : Int := a.m_cols

def Arena.player (a : Arena) : Option Player := a.m_player

def Arena.zurtCount (a : Arena) : Int := a.m_zurts.length

/-- The helper `Arena::isPosInBounds`. -/
def Arena.isPosInBounds (a : Arena) (r c : Int) : Bool :=
  decide (r ≥ 1) && decide (r ≤ a.m_rows) && decide (c ≥ 1) && decide (c ≤ a.m_cols)

/-- The helper `Arena::checkPos`: `none` is the fatal exit. -/
def Arena.checkPos (a : Arena) (r c : Int) : Option Unit :=
  if !a.isPosInBounds r c then none else some ()

/-- The accessor `Arena::getCellStatus`. -/
def Arena.getCellStatus (a : Arena) (r c : Int) : Option Int :=
  match a.checkPos r c with
  | none => none
  | some _ => some (a.m_grid (r - 1) (c - 1))

/-- The accessor `Arena::numberOfZurtsAt`: the counting loop over the
collection. -/
def Arena.numberOfZurtsAt (a : Arena) (r c : Int) : Int :=
  a.m_zurts.foldl
    (fun count zp => if zp.m_row = r ∧ zp.m_col = c then count + 1 else count) 0

/-- The mutator `Arena::setCellStatus`. -/
def Arena.setCellStatus (a : Arena) (r c : Int) (status : Int) : Option Arena :=
  match a.checkPos r c with
  | none => none
  | some _ =>
    some { a with
      m_grid := fun i j => if i = r - 1 ∧ j = c - 1 then status else a.m_grid i j }

/-! ## Auxiliary functions -/

/-- The `switch (dir)` of `attemptMove`: `none` when the case taken returns
false, otherwise the values of `rnew` and `cnew` after the switch (a value of
`dir` without a case leaves them equal to `r` and `c`). -/
def switchDir (a : Arena) (dir : Int) (r c : Int) : Option (Int × Int) :=
  if dir = NORTH then (if r ≤ 1 then none else some (r - 1, c))
  else if dir = EAST then (if c ≥ a.cols then none else some (r, c + 1))
  else if dir = SOUTH then (if r ≥ a.rows then none else some (r + 1, c))
  else if dir = WEST then (if c ≤ 1 then none else some (r, c - 1))
  else some (r, c)

/-- The function `attemptMove(a, dir, r, c)`: the boolean result together with
the values of the reference parameters `r` and `c` on return. -/
def attemptMove (a : Arena) (dir : Int) (r c : Int) : Option (Bool × Int × Int) :=
  match switchDir a dir r c with
  | none => some (false, r, c)
  | some (rnew, cnew) =>
    match a.getCellStatus rnew cnew with
    | none => none
    | some status =>
      if status = WALL then some (false, r, c) else some (true, rnew, cnew)

/-- The function `computeDanger(a, r, c)`. -/
def computeDanger (a : Arena) (r c : Int) : Int :=
  if a.numberOfZurtsAt r c > 0 then MAXZURTS + 1
  else
    let danger : Int := 0
    let danger := if r > 1 then danger + a.numberOfZurtsAt (r - 1) c else danger
    let danger := if r < a.rows then danger + a.numberOfZurtsAt (r + 1) c else danger
    let danger := if c > 1 then danger + a.numberOfZurtsAt r (c - 1) else danger
    let danger := if c < a.cols then danger + a.numberOfZurtsAt r (c + 1) else danger
    danger

/-- The body of the `for (dir = 0; dir < NUMDIRS; dir++)` loop of
`recommendMove`, run for the directions of the list in turn.  The state is
`(bestMoveDanger, bestMoveDir)`. -/
def recommendLoop (a : Arena) (r c : Int) : List Int → Int × Int → Option (Int × Int)
  | [], best => some best
  | dir :: dirs, best =>
    match attemptMove a dir r c with
    | none => none
    | some (true, rnew, cnew) =>
      let danger := computeDanger a rnew cnew
      if danger < best.1 then recommendLoop a r c dirs (danger, dir)
      else recommendLoop a r c dirs best
    | some (false, _, _) => recommendLoop a r c dirs best

/-- The directions `0, 1, ..., NUMDIRS - 1` in the order of the scan. -/
def scanDirs : List Int := [NORTH, EAST, SOUTH, WEST]

/-- The function `recommendMove(a, r, c, bestDir)`: the boolean result and the
value of the reference parameter `bestDir` on return. -/
def recommendMove (a : Arena) (r c : Int) (bestDir : Int) : Option (Bool × Int) :=
  let standDanger := computeDanger a r c
  if standDanger > 0 then
    match recommendLoop a r c scanDirs (standDanger, NORTH) with
    | none => none
    | some (bestMoveDanger, bestMoveDir) =>
      if bestMoveDanger < standDanger then some (true, bestMoveDir)
      else some (false, bestDir)
  else some (false, bestDir)

/-! ## Zurt implementation -/

/-- The constructor `Zurt::Zurt`. -/
def Zurt.create (ap : Arena) (r c : Int) (color : Char) : Option Zurt :=
  if r < 1 ∨ r > ap.rows ∨ c < 1 ∨ c > ap.cols then none
  else if color ≠ 'R' ∧ color ≠ 'Y' ∧ color ≠ 'B' then none
  else some { m_row := r, m_col := c, m_color := color, m_health := ZURT_HEALTH }

def Zurt.row (z : Zurt) : Int := z.m_row

def Zurt.col (z : Zurt) : Int := z.m_col

def Zurt.color (z : Zurt) : Char := z.m_color

def Zurt.isDead (z : Zurt) : Bool := decide (z.m_health = 0)

/-- The mutator `Zurt::forceMove`. -/
def Zurt.forceMove (z : Zurt) (a : Arena) (dir : Int) : Option Zurt :=
  if !z.isDead then
    match attemptMove a dir z.m_row z.m_col with
    | none => none
    | some (true, r, c) => some { z with m_row := r, m_col := c }
    | some (false, r, c) => some { z with m_row := r, m_col := c, m_health := z.m_health - 1 }
  else some z

/-- The mutator `Zurt::move`. -/
def Zurt.move (z : Zurt) (a : Arena) (g : Rng) : Option (Zurt × Rng) :=
  if !z.isDead then
    let d := randInt 0 (NUMDIRS - 1) g
    match attemptMove a d.1 z.m_row z.m_col with
    | none => none
    | some (_, r, c) => some ({ z with m_row := r, m_col := c }, d.2)
  else some (z, g)

/-! ## Player implementation -/

/-- The constructor `Player::Player`. -/
def Player.create (ap : Arena) (r c : Int) : Option Player :=
  if r < 1 ∨ r > ap.rows ∨ c < 1 ∨ c > ap.cols then none
  else some { m_row := r, m_col := c, m_dead := false }

def Player.row (p : Player) : Int := p.m_row

def Player.col (p : Player) : Int := p.m_col

def Player.isDead (p : Player) : Bool := p.m_dead

def Player.setDead (p : Player) : Player := { p with m_dead := true }

/-- The mutator `Player::stand`. -/
def Player.stand (p : Player) : Player × String := (p, "Player stands.")

/-- The text appended by the `switch (dir)` of `Player::move`. -/
def dirName (dir : Int) : String :=
  if dir = NORTH then "north"
  else if dir = EAST then "east"
  else if dir = SOUTH then "south"
  else if dir = WEST then "west"
  else ""

/-- The mutator `Player::move`. -/
def Player.move (p : Player) (a : Arena) (dir : Int) : Option (Player × String) :=
  match attemptMove a dir p.m_row p.m_col with
  | none => none
  | some (true, r, c) =>
    let p1 : Player := { p with m_row := r, m_col := c }
    if a.numberOfZurtsAt p1.m_row p1.m_col > 0 then
      some (p1.setDead, "Player walked into a zurt and died.")
    else
      some (p1, "Player moved " ++ dirName dir ++ ".")
  | some (false, r, c) =>
    some ({ p with m_row := r, m_col := c }, "Player couldn't move; player stands.")

/-! ## Arena mutators -/

/-- The integers `lo, lo+1, ..., hi` visited by `for (i = lo; i <= hi; i++)`. -/
def intRange (lo hi : Int) : List Int :=
  (List.range (hi + 1 - lo).toNat).map (fun (k : Nat) => lo + (k : Int))

/-- The constructor `Arena::Arena`.  The array `m_grid` starts with the
arbitrary content `uninit`, and the two nested loops set every cell of the
arena to `EMPTY`. -/
def Arena.create (nRows nCols : Int) (uninit : Int → Int → Int) : Option Arena :=
  if nRows ≤ 0 ∨ nCols ≤ 0 ∨ nRows > MAXROWS ∨ nCols > MAXCOLS then none
  else
    let a0 : Arena :=
      { m_grid := uninit, m_rows := nRows, m_cols := nCols, m_player := none, m_zurts := [] }
    (intRange 1 a0.m_rows).foldlM
      (fun a r => (intRange 1 a.m_cols).foldlM (fun a c => a.setCellStatus r c EMPTY) a) a0

/-- The mutator `Arena::addZurt`: the arena afterwards and the boolean
result. -/
def Arena.addZurt (a : Arena) (r c : Int) (color : Char) : Option (Arena × Bool) :=
  if !a.isPosInBounds r c then some (a, false)
  else
    match a.getCellStatus r c with
    | none => none
    | some status =>
      if status ≠ EMPTY then some (a, false)
      else if (match a.m_player with
               | some p => decide (p.row = r ∧ p.col = c)
               | none => false) then some (a, false)
      else if color ≠ 'R' ∧ color ≠ 'Y' ∧ color ≠ 'B' then some (a, false)
      else if a.zurtCount = MAXZURTS then some (a, false)
      else
        match Zurt.create a r c color with
        | none => none
        | some z => some ({ a with m_zurts := a.m_zurts ++ [z] }, true)

/-- The mutator `Arena::addPlayer`: the arena afterwards and the boolean
result. -/
def Arena.addPlayer (a : Arena) (r c : Int) : Option (Arena × Bool) :=
  if a.m_player.isSome then some (a, false)
  else if !a.isPosInBounds r c then some (a, false)
  else
    match a.getCellStatus r c with
    | none => none
    | some status =>
      if status ≠ EMPTY then some (a, false)
      else if a.numberOfZurtsAt r c > 0 then some (a, false)
      else
        match Player.create a r c with
        | none => none
        | some p => some ({ a with m_player := some p }, true)

/-- The first statement of the loop body of `Arena::moveZurts`: the zurt
makes a forced move or a random move. -/
def stepZurt (a : Arena) (willFollow : Bool) (color : Char) (dir : Int)
    (zp : Zurt) (g : Rng) : Option (Zurt × Rng) :=
  if willFollow && decide (zp.color = color) then
    match zp.forceMove a dir with
    | none => none
    | some z1 => some (z1, g)
  else zp.move a g

/-- The second statement of the loop body of `Arena::moveZurts`: the player,
if there is one, is set dead when the zurt stands on the player's cell. -/
def hitPlayer (pl : Option Player) (zp : Zurt) : Option Player :=
  match pl with
  | some p => if zp.row = p.row ∧ zp.col = p.col then some p.setDead else some p
  | none => none

/-- The loop `for (k = m_nZurts - 1; k >= 0; k--)` of `Arena::moveZurts`.  The
first argument is `k + 1`: it is `0` when the loop ends.  Reading `m_zurts[k]`
with `k` outside the collection does not happen (`k < m_nZurts` holds
throughout); the model returns `none` there. -/
def Arena.moveZurtsLoop (willFollow : Bool) (color : Char) (dir : Int) :
    Nat → Arena → Rng → Option (Arena × Rng)
  | 0, a, g => some (a, g)
  | k + 1, a, g =>
    match a.m_zurts[k]? with
    | none => none
    | some zp =>
      match stepZurt a willFollow color dir zp g with
      | none => none
      | some (z1, g1) =>
        -- the zurt pointed to by m_zurts[k] has been updated in place
        let zurts1 := a.m_zurts.set k z1
        let player1 := hitPlayer a.m_player z1
        let zurts2 :=
          if z1.isDead then (zurts1.set k (zurts1.getLastD z1)).dropLast else zurts1
        Arena.moveZurtsLoop willFollow color dir k
          { a with m_player := player1, m_zurts := zurts2 } g1

/-- The mutator `Arena::moveZurts`: the arena afterwards, the message returned
and the rest of the random stream. -/
def Arena.moveZurts (a : Arena) (color : Char) (dir : Int) (g : Rng) :
    Option (Arena × String × Rng) :=
  let d := randInt 0 1 g
  let willFollow := decide (d.1 = 0)
  let nZurtsOriginally := a.zurtCount
  match Arena.moveZurtsLoop willFollow color dir a.m_zurts.length a d.2 with
  | none => none
  | some (a1, g1) =>
    if a1.zurtCount < nZurtsOriginally then
      some (a1, "Some zurts have been destroyed.", g1)
    else
      some (a1, "No zurts were destroyed.", g1)

/-! ## Reachable arena states -/

/-- The arena states that arise from a constructed arena by calls of the
public operations, with arbitrary arguments and arbitrary random draws. -/
inductive Reachable : Arena → Prop
  | construct (nRows nCols : Int) (uninit : Int → Int → Int) (a : Arena) :
      Arena.create nRows nCols uninit = some a → Reachable a
  | setCellStatus (a a1 : Arena) (r c status : Int) :
      Reachable a → a.setCellStatus r c status = some a1 → Reachable a1
  | addZurt (a a1 : Arena) (r c : Int) (color : Char) (b : Bool) :
      Reachable a → a.addZurt r c color = some (a1, b) → Reachable a1
  | addPlayer (a a1 : Arena) (r c : Int) (b : Bool) :
      Reachable a → a.addPlayer r c = some (a1, b) → Reachable a1
  | playerMove (a : Arena) (p p1 : Player) (dir : Int) (msg : String) :
      Reachable a → a.m_player = some p → p.move a dir = some (p1, msg) →
      Reachable { a with m_player := some p1 }
  | playerStand (a : Arena) (p : Player) :
      Reachable a → a.m_player = some p →
      Reachable { a with m_player := some p.stand.1 }
  | moveZurts (a a1 : Arena) (color : Char) (dir : Int) (g g1 : Rng) (msg : String) :
      Reachable a → a.moveZurts color dir g = some (a1, msg, g1) → Reachable a1

/-! ## Specification-level definitions -/

/-- Every zurt of the list steps once, in the order of the list, drawing from
the random stream in that order; the stepped zurts are returned in the same
order. -/
def stepSeq (a : Arena) (willFollow : Bool) (color : Char) (dir : Int) :
    List Zurt → Rng → Option (List Zurt × Rng)
  | [], g => some ([], g)
  | z :: zs, g =>
    match stepZurt a willFollow color dir z g with
    | none => none
    | some (z1, g1) =>
      match stepSeq a willFollow color dir zs g1 with
      | none => none
      | some (zs1, g2) => some (z1 :: zs1, g2)

/-- The cell one step from `(r,c)` in direction `dir`. -/
def adjacent (dir : Int) (r c : Int) : Int × Int :=
  if dir = NORTH then (r - 1, c)
  else if dir = EAST then (r, c + 1)
  else if dir = SOUTH then (r + 1, c)
  else if dir = WEST then (r, c - 1)
  else (r, c)

/-- A direction is one of `NORTH`, `EAST`, `SOUTH`, `WEST`. -/
def isDir (dir : Int) : Prop := dir = NORTH ∨ dir = EAST ∨ dir = SOUTH ∨ dir = WEST

instance (dir : Int) : Decidable (isDir dir) := by unfold isDir; infer_instance

/-- The properties shared by all reachable arenas: the size is legal, at most
`MAXZURTS` zurts, every zurt stands in the arena with health from 1 to
`ZURT_HEALTH`, and the player stands in the arena. -/
def Arena.WF (a : Arena) : Prop :=
  (1 ≤ a.m_rows ∧ a.m_rows ≤ MAXROWS ∧ 1 ≤ a.m_cols ∧ a.m_cols ≤ MAXCOLS) ∧
  a.zurtCount ≤ MAXZURTS ∧
  (∀ z ∈ a.m_zurts, a.isPosInBounds z.m_row z.m_col = true ∧
    1 ≤ z.m_health ∧ z.m_health ≤ ZURT_HEALTH) ∧
  (∀ p, a.m_player = some p → a.isPosInBounds p.m_row p.m_col = true)

/-- The four orthogonal neighbours of `(r,c)`. -/
def neighbours (r c : Int) : List (Int × Int) :=
  [(r - 1, c), (r + 1, c), (r, c - 1), (r, c + 1)]

/-- The sum of `numberOfZurtsAt` over the neighbours of `(r,c)` that are in
bounds. -/
def neighbourSum (a : Arena) (r c : Int) : Int :=
  (((neighbours r c).filter (fun q => a.isPosInBounds q.1 q.2)).map
    (fun q => a.numberOfZurtsAt q.1 q.2)).sum

/-! ## Example arenas -/

/-- The arena that `Arena(1, 2)` constructs from a grid of sevens. -/
def arenaFresh12 : Arena :=
  { m_grid := fun i j =>
      if i = 1 - 1 ∧ j = 2 - 1 then EMPTY else if i = 1 - 1 ∧ j = 1 - 1 then EMPTY else 7
    m_rows := 1, m_cols := 2
    m_player := none
    m_zurts := [] }

/-- The arena `arenaFresh12` after `addZurt(1, 2, 'R')`. -/
def arenaOneZurt12 : Arena :=
  { arenaFresh12 with m_zurts := [{ m_row := 1, m_col := 2, m_color := 'R', m_health := 3 }] }

/-- A 1x2 arena with a wall at (1,2) and three zurts at (1,1). -/
def arenaThreeZurts : Arena :=
  { m_grid := fun i j => if i = 0 ∧ j = 1 then WALL else EMPTY
    m_rows := 1, m_cols := 2
    m_player := none
    m_zurts := [{ m_row := 1, m_col := 1, m_color := 'R', m_health := 1 },
                { m_row := 1, m_col := 1, m_color := 'Y', m_health := 3 },
                { m_row := 1, m_col := 1, m_color := 'R', m_health := 2 }] }


/-- A 1x2 arena with a wall at (1,2) and the player at (1,1). -/
def arenaWall12 : Arena :=
  { m_grid := fun i j => if i = 0 ∧ j = 1 then WALL else EMPTY
    m_rows := 1, m_cols := 2
    m_player := some { m_row := 1, m_col := 1, m_dead := false }
    m_zurts := [] }

/-- A 3x3 arena without walls, one zurt at (2,1) and the player at (2,2). -/
def arenaOpen33 : Arena :=
  { m_grid := fun _ _ => EMPTY
    m_rows := 3, m_cols := 3
    m_player := some { m_row := 2, m_col := 2, m_dead := false }
    m_zurts := [{ m_row := 2, m_col := 1, m_color := 'R', m_health := 3 }] }

/-- The arena `arenaFresh12` after `n` calls `addZurt(1, 1, 'R')`. -/
def arenaFilled (n : Nat) : Arena :=
  { arenaFresh12 with
    m_zurts := List.replicate n { m_row := 1, m_col := 1, m_color := 'R', m_health := 3 } }

/-- The arena `arenaOneZurt12` after `setCellStatus(1, 2, WALL)`: the wall is
put on the cell of the zurt. -/
def arenaZurtOnWall : Arena :=
  { arenaOneZurt12 with
    m_grid := fun i j => if i = 1 - 1 ∧ j = 2 - 1 then WALL else arenaOneZurt12.m_grid i j }

/-- The arena `arenaOneZurt12` after `setCellStatus(1, 1, WALL)`: the wall is
put beside the zurt. -/
def arenaWallBeside : Arena :=
  { arenaOneZurt12 with
    m_grid := fun i j => if i = 1 - 1 ∧ j = 1 - 1 then WALL else arenaOneZurt12.m_grid i j }

/-- The reachable arena states when `setCellStatus` is called with the status
`WALL` only for a cell on which no zurt and no player stands. -/
inductive ReachableGuarded : Arena → Prop
  | construct (nRows nCols : Int) (uninit : Int → Int → Int) (a : Arena) :
      Arena.create nRows nCols uninit = some a → ReachableGuarded a
  | setCellStatus (a a1 : Arena) (r c status : Int) :
      ReachableGuarded a →
      (status = WALL → a.numberOfZurtsAt r c = 0 ∧
        ∀ p, a.m_player = some p → ¬(p.m_row = r ∧ p.m_col = c)) →
      a.setCellStatus r c status = some a1 → ReachableGuarded a1
  | addZurt (a a1 : Arena) (r c : Int) (color : Char) (b : Bool) :
      ReachableGuarded a → a.addZurt r c color = some (a1, b) → ReachableGuarded a1
  | addPlayer (a a1 : Arena) (r c : Int) (b : Bool) :
      ReachableGuarded a → a.addPlayer r c = some (a1, b) → ReachableGuarded a1
  | playerMove (a : Arena) (p p1 : Player) (dir : Int) (msg : String) :
      ReachableGuarded a → a.m_player = some p → p.move a dir = some (p1, msg) →
      ReachableGuarded { a with m_player := some p1 }
  | playerStand (a : Arena) (p : Player) :
      ReachableGuarded a → a.m_player = some p →
      ReachableGuarded { a with m_player := some p.stand.1 }
  | moveZurts (a a1 : Arena) (color : Char) (dir : Int) (g g1 : Rng) (msg : String) :
      ReachableGuarded a → a.moveZurts color dir g = some (a1, msg, g1) → ReachableGuarded a1

/-- No zurt of the collection and no player stands on a wall: each stands on
a cell of the arena whose status is not `WALL`. -/
def Arena.noneOnWall (a : Arena) : Prop :=
  (∀ z ∈ a.m_zurts, a.isPosInBounds z.m_row z.m_col = true ∧
    a.m_grid (z.m_row - 1) (z.m_col - 1) ≠ WALL) ∧
  (∀ p, a.m_player = some p → a.isPosInBounds p.m_row p.m_col = true ∧
    a.m_grid (p.m_row - 1) (p.m_col - 1) ≠ WALL)

/-- A player that is not dead shares its cell with no zurt. -/
def Arena.aliveApart (a : Arena) : Prop :=
  ∀ p, a.m_player = some p → p.m_dead = false → a.numberOfZurtsAt p.m_row p.m_col = 0

/-- The arena `arenaOneZurt12` after `addPlayer(1, 1)`. -/
def arenaWithPlayer12 : Arena :=
  { arenaOneZurt12 with m_player := some { m_row := 1, m_col := 1, m_dead := false } }

/-- The arena `arenaWithPlayer12` after `moveZurts('R', WEST)` when all draws
are 0: the zurt has stepped onto the cell of the player, who is dead. -/
def arenaPlayerHit : Arena :=
  { arenaFresh12 with
    m_player := some { m_row := 1, m_col := 1, m_dead := true }
    m_zurts := [{ m_row := 1, m_col := 1, m_color := 'R', m_health := 3 }] }

/-- The sum of `numberOfZurtsAt` over all cells of the arena. -/
def cellSum (a : Arena) : Int :=
  ∑ r ∈ Finset.Icc 1 a.m_rows, ∑ c ∈ Finset.Icc 1 a.m_cols, a.numberOfZurtsAt r c

/-! ## Basic facts -/

theorem isPosInBounds_iff (a : Arena) (r c : Int) :
    a.isPosInBounds r c = true ↔ 1 ≤ r ∧ r ≤ a.m_rows ∧ 1 ≤ c ∧ c ≤ a.m_cols := by
  simp [Arena.isPosInBounds, and_assoc]

theorem getCellStatus_of_inBounds (a : Arena) (r c : Int)
    (h : a.isPosInBounds r c = true) :
    a.getCellStatus r c = some (a.m_grid (r - 1) (c - 1)) := by
  simp [Arena.getCellStatus, Arena.checkPos, h]

theorem getCellStatus_of_not_inBounds (a : Arena) (r c : Int)
    (h : a.isPosInBounds r c = false) : a.getCellStatus r c = none := by
  simp [Arena.getCellStatus, Arena.checkPos, h]

theorem getCellStatus_eq_some (a : Arena) (r c st : Int)
    (h : a.getCellStatus r c = some st) :
    a.isPosInBounds r c = true ∧ st = a.m_grid (r - 1) (c - 1) := by
  cases hb : a.isPosInBounds r c with
  | false => rw [getCellStatus_of_not_inBounds a r c hb] at h; cases h
  | true =>
    rw [getCellStatus_of_inBounds a r c hb] at h
    exact ⟨rfl, (Option.some.inj h).symm⟩

theorem foldl_count (r c : Int) (zs : List Zurt) (init : Int) :
    zs.foldl (fun count zp => if zp.m_row = r ∧ zp.m_col = c then count + 1 else count) init
      = init + (zs.countP (fun z => decide (z.m_row = r ∧ z.m_col = c)) : Int) := by
  induction zs generalizing init with
  | nil => simp
  | cons z zs ih =>
    rw [List.foldl_cons, ih, List.countP_cons]
    by_cases h : z.m_row = r ∧ z.m_col = c
    · simp only [h, and_self, if_true, decide_True]
      push_cast
      ring
    · simp [h]

theorem numberOfZurtsAt_eq_countP (a : Arena) (r c : Int) :
    a.numberOfZurtsAt r c
      = (a.m_zurts.countP (fun z => decide (z.m_row = r ∧ z.m_col = c)) : Int) := by
  unfold Arena.numberOfZurtsAt
  rw [foldl_count]
  simp

theorem numberOfZurtsAt_nonneg (a : Arena) (r c : Int) : 0 ≤ a.numberOfZurtsAt r c := by
  rw [numberOfZurtsAt_eq_countP]
  exact Int.natCast_nonneg _

/-- The function `attemptMove` reads the grid and the size of the arena
only. -/
theorem attemptMove_congr (a b : Arena) (hg : a.m_grid = b.m_grid)
    (hr : a.m_rows = b.m_rows) (hc : a.m_cols = b.m_cols) (dir r c : Int) :
    attemptMove a dir r c = attemptMove b dir r c := by
  simp only [attemptMove, switchDir, Arena.getCellStatus, Arena.checkPos,
    Arena.isPosInBounds, Arena.rows, Arena.cols, hg, hr, hc]

/-- The result of `attemptMove` from a cell of the arena, for any direction
value. -/
theorem attemptMove_eq (a : Arena) (dir r c : Int) (hb : a.isPosInBounds r c = true) :
    attemptMove a dir r c =
      some (if a.isPosInBounds (adjacent dir r c).1 (adjacent dir r c).2 = true ∧
              a.m_grid ((adjacent dir r c).1 - 1) ((adjacent dir r c).2 - 1) ≠ WALL
            then (true, (adjacent dir r c).1, (adjacent dir r c).2)
            else (false, r, c)) := by
  rw [isPosInBounds_iff] at hb
  obtain ⟨h1, h2, h3, h4⟩ := hb
  have key : ∀ r1 c1 : Int, a.isPosInBounds r1 c1 = true →
      (match a.getCellStatus r1 c1 with
        | none => none
        | some status =>
          if status = WALL then some (false, r, c) else some (true, r1, c1))
      = some (if a.isPosInBounds r1 c1 = true ∧ a.m_grid (r1 - 1) (c1 - 1) ≠ WALL
            then (true, r1, c1) else (false, r, c)) := by
    intro r1 c1 hb1
    rw [getCellStatus_of_inBounds a r1 c1 hb1]
    by_cases hw : a.m_grid (r1 - 1) (c1 - 1) = WALL <;> simp [hw, hb1]
  unfold attemptMove switchDir adjacent
  simp only [Arena.rows, Arena.cols]
  by_cases hN : dir = NORTH
  · simp only [hN, if_true]
    by_cases hr : r ≤ 1
    · have : a.isPosInBounds (r - 1) c = false := by
        rw [← Bool.not_eq_true, isPosInBounds_iff]; omega
      simp [hr, this]
    · simp only [hr, if_false]
      exact key _ _ (by rw [isPosInBounds_iff]; omega)
  · simp only [hN, if_false]
    by_cases hE : dir = EAST
    · simp only [hE, if_true]
      by_cases hr : c ≥ a.m_cols
      · have : a.isPosInBounds r (c + 1) = false := by
          rw [← Bool.not_eq_true, isPosInBounds_iff]; omega
        simp [hr, this]
      · simp only [hr, if_false]
        exact key _ _ (by rw [isPosInBounds_iff]; omega)
    · simp only [hE, if_false]
      by_cases hS : dir = SOUTH
      · simp only [hS, if_true]
        by_cases hr : r ≥ a.m_rows
        · have : a.isPosInBounds (r + 1) c = false := by
            rw [← Bool.not_eq_true, isPosInBounds_iff]; omega
          simp [hr, this]
        · simp only [hr, if_false]
          exact key _ _ (by rw [isPosInBounds_iff]; omega)
      · simp only [hS, if_false]
        by_cases hW : dir = WEST
        · simp only [hW, if_true]
          by_cases hr : c ≤ 1
          · have : a.isPosInBounds r (c - 1) = false := by
              rw [← Bool.not_eq_true, isPosInBounds_iff]; omega
            simp [hr, this]
          · simp only [hr, if_false]
            exact key _ _ (by rw [isPosInBounds_iff]; omega)
        · simp only [hW, if_false]
          exact key _ _ (by rw [isPosInBounds_iff]; omega)

/-! ## The loop of `moveZurts` -/

theorem stepZurt_congr (a b : Arena) (hg : a.m_grid = b.m_grid)
    (hr : a.m_rows = b.m_rows) (hc : a.m_cols = b.m_cols)
    (wf : Bool) (color : Char) (dir : Int) (z : Zurt) (g : Rng) :
    stepZurt a wf color dir z g = stepZurt b wf color dir z g := by
  simp only [stepZurt, Zurt.forceMove, Zurt.move, attemptMove_congr a b hg hr hc]

theorem stepSeq_congr (a b : Arena) (hg : a.m_grid = b.m_grid)
    (hr : a.m_rows = b.m_rows) (hc : a.m_cols = b.m_cols)
    (wf : Bool) (color : Char) (dir : Int) (zs : List Zurt) (g : Rng) :
    stepSeq a wf color dir zs g = stepSeq b wf color dir zs g := by
  induction zs generalizing g with
  | nil => rfl
  | cons z zs ih =>
    simp only [stepSeq, stepZurt_congr a b hg hr hc, ih]

/-- Removing slot `k` by moving the last pointer into it, when the slots
after `k` hold `post`: the slots before `k` are kept and the slots from `k`
on hold a rearrangement of `post`. -/
theorem swapRemove_perm (front post : List Zurt) (z1 : Zurt) :
    ∃ post1, post1.Perm post ∧
      (((front ++ z1 :: post).set front.length
          ((front ++ z1 :: post).getLastD z1)).dropLast) = front ++ post1 := by
  cases post with
  | nil =>
    refine ⟨[], List.Perm.refl _, ?_⟩
    simp [List.getLastD]
  | cons q qs =>
    refine ⟨(q :: qs).getLast (by simp) :: (q :: qs).dropLast, ?_, ?_⟩
    · have h := List.dropLast_append_getLast (l := q :: qs) (by simp)
      have h2 : ((q :: qs).getLast (by simp) :: (q :: qs).dropLast).Perm
          ((q :: qs).dropLast ++ [(q :: qs).getLast (by simp)]) :=
        (List.perm_append_singleton _ _).symm
      rw [h] at h2
      exact h2
    · have hl : (front ++ z1 :: q :: qs).getLastD z1 = (q :: qs).getLast (by simp) := by
        rw [List.getLastD_eq_getLast?, List.getLast?_append, List.getLast?_cons_cons]
        simp [List.getLast?_eq_getLast]
      rw [hl]
      simp [List.dropLast_append_of_ne_nil]

/-- One iteration of the loop of `moveZurts` at slot `k = front.length`. -/
theorem moveZurtsLoop_succ (wf : Bool) (color : Char) (dir : Int)
    (front post : List Zurt) (z z1 : Zurt) (a : Arena) (g g1 : Rng)
    (hz : a.m_zurts = front ++ z :: post)
    (hs : stepZurt a wf color dir z g = some (z1, g1)) :
    ∃ post1, post1.Perm (if z1.isDead then post else z1 :: post) ∧
      Arena.moveZurtsLoop wf color dir (front.length + 1) a g =
        Arena.moveZurtsLoop wf color dir front.length
          { a with m_player := hitPlayer a.m_player z1, m_zurts := front ++ post1 } g1 := by
  have hget : a.m_zurts[front.length]? = some z := by
    rw [hz, List.getElem?_append_right (le_refl _)]; simp
  have hset : a.m_zurts.set front.length z1 = front ++ z1 :: post := by
    rw [hz]; simp
  by_cases hd : z1.isDead = true
  · obtain ⟨post1, hperm, heq⟩ := swapRemove_perm front post z1
    refine ⟨post1, by simpa [hd] using hperm, ?_⟩
    rw [Arena.moveZurtsLoop]
    simp only [hget, hs, hset, hd, if_true, heq]
  · refine ⟨z1 :: post, by simp [hd], ?_⟩
    rw [Arena.moveZurtsLoop]
    simp only [hget, hs, hset, hd, if_false]
    simp

theorem moveZurtsLoop_fatal (wf : Bool) (color : Char) (dir : Int)
    (front post : List Zurt) (z : Zurt) (a : Arena) (g : Rng)
    (hz : a.m_zurts = front ++ z :: post)
    (hs : stepZurt a wf color dir z g = none) :
    Arena.moveZurtsLoop wf color dir (front.length + 1) a g = none := by
  have hget : a.m_zurts[front.length]? = some z := by
    rw [hz, List.getElem?_append_right (le_refl _)]; simp
  rw [Arena.moveZurtsLoop]
  simp only [hget, hs]

/-- The loop of `moveZurts` run over the slots `0 .. rfront.length - 1`, which
hold `rfront` in reverse: it ends fatally exactly when stepping those zurts in
turn does, and otherwise it leaves the grid alone, has applied `hitPlayer` for
every stepped zurt, and the collection holds the stepped zurts that are not
dead together with the zurts of the other slots. -/
theorem moveZurtsLoop_spec (wf : Bool) (color : Char) (dir : Int) (rfront : List Zurt) :
    ∀ (post : List Zurt) (a : Arena) (g : Rng), a.m_zurts = rfront.reverse ++ post →
      (stepSeq a wf color dir rfront g = none →
        Arena.moveZurtsLoop wf color dir rfront.length a g = none) ∧
      (∀ stepped g1, stepSeq a wf color dir rfront g = some (stepped, g1) →
        ∃ a1, Arena.moveZurtsLoop wf color dir rfront.length a g = some (a1, g1) ∧
          a1.m_grid = a.m_grid ∧ a1.m_rows = a.m_rows ∧ a1.m_cols = a.m_cols ∧
          a1.m_player = stepped.foldl hitPlayer a.m_player ∧
          a1.m_zurts.Perm (stepped.filter (fun z => !z.isDead) ++ post)) := by
  induction rfront with
  | nil =>
    intro post a g hz
    constructor
    · intro h; simp [stepSeq] at h
    · intro stepped g1 h
      simp only [stepSeq, Option.some.injEq, Prod.mk.injEq] at h
      obtain ⟨h1, h2⟩ := h
      subst h1; subst h2
      refine ⟨a, by simp [Arena.moveZurtsLoop], rfl, rfl, rfl, rfl, ?_⟩
      rw [hz]; simp
  | cons z rest ih =>
    intro post a g hz
    have hz1 : a.m_zurts = rest.reverse ++ z :: post := by
      rw [hz]; simp
    have hlen : (z :: rest).length = rest.reverse.length + 1 := by simp
    rw [hlen]
    cases hs : stepZurt a wf color dir z g with
    | none =>
      constructor
      · intro _
        exact moveZurtsLoop_fatal wf color dir rest.reverse post z a g hz1 hs
      · intro stepped g1 h
        simp [stepSeq, hs] at h
    | some res =>
      obtain ⟨z1, g1⟩ := res
      obtain ⟨post1, hperm, hloop⟩ :=
        moveZurtsLoop_succ wf color dir rest.reverse post z z1 a g g1 hz1 hs
      rw [hloop, List.length_reverse]
      have hcongr := stepSeq_congr
        { a with m_player := hitPlayer a.m_player z1, m_zurts := rest.reverse ++ post1 } a
        rfl rfl rfl wf color dir rest g1
      obtain ⟨ihn, ihs⟩ := ih post1
        { a with m_player := hitPlayer a.m_player z1, m_zurts := rest.reverse ++ post1 } g1 rfl
      rw [hcongr] at ihn ihs
      constructor
      · intro h
        apply ihn
        cases hr : stepSeq a wf color dir rest g1 with
        | none => rfl
        | some r => simp [stepSeq, hs, hr] at h
      · intro stepped g2 h
        cases hr : stepSeq a wf color dir rest g1 with
        | none => simp [stepSeq, hs, hr] at h
        | some r =>
          obtain ⟨rs, g3⟩ := r
          simp only [stepSeq, hs, hr, Option.some.injEq, Prod.mk.injEq] at h
          obtain ⟨h1, h2⟩ := h
          subst h1; subst h2
          obtain ⟨a1, hl, hg, hrw, hcl, hp, hzs⟩ := ihs rs g3 hr
          refine ⟨a1, hl, hg, hrw, hcl, by simpa using hp, ?_⟩
          refine hzs.trans ?_
          by_cases hd : z1.isDead = true
          · simp only [hd, if_true] at hperm
            simp only [List.filter_cons, hd, Bool.not_true, Bool.false_eq_true, if_false]
            exact List.Perm.append_left _ hperm
          · have hd1 : z1.isDead = false := by simpa using hd
            simp only [hd1, Bool.false_eq_true, if_false] at hperm
            simp only [List.filter_cons, hd1, Bool.not_false, if_true]
            refine (List.Perm.append_left _ hperm).trans ?_
            exact List.perm_middle

/-- The whole of `moveZurts` in terms of stepping the zurts one after the
other from the last slot to the first. -/
theorem moveZurts_spec (a : Arena) (color : Char) (dir : Int) (g : Rng) :
    (stepSeq a (decide ((randInt 0 1 g).1 = 0)) color dir a.m_zurts.reverse
        (randInt 0 1 g).2 = none → a.moveZurts color dir g = none) ∧
    (∀ stepped g1,
      stepSeq a (decide ((randInt 0 1 g).1 = 0)) color dir a.m_zurts.reverse
        (randInt 0 1 g).2 = some (stepped, g1) →
      ∃ a1 msg, a.moveZurts color dir g = some (a1, msg, g1) ∧
        a1.m_grid = a.m_grid ∧ a1.m_rows = a.m_rows ∧ a1.m_cols = a.m_cols ∧
        a1.m_player = stepped.foldl hitPlayer a.m_player ∧
        a1.m_zurts.Perm (stepped.filter (fun z => !z.isDead)) ∧
        msg = (if a1.zurtCount < a.zurtCount then "Some zurts have been destroyed."
               else "No zurts were destroyed.")) := by
  obtain ⟨hn, hs⟩ := moveZurtsLoop_spec (decide ((randInt 0 1 g).1 = 0)) color dir
    a.m_zurts.reverse [] a (randInt 0 1 g).2 (by simp)
  rw [List.length_reverse] at hn hs
  constructor
  · intro h
    simp only [Arena.moveZurts, hn h]
  · intro stepped g1 h
    obtain ⟨a1, hl, hg, hr, hc, hp, hz⟩ := hs stepped g1 h
    rw [List.append_nil] at hz
    by_cases hlt : a1.zurtCount < a.zurtCount
    · exact ⟨a1, "Some zurts have been destroyed.",
        by simp only [Arena.moveZurts, hl, hlt, if_true], hg, hr, hc, hp, hz,
        by simp only [hlt, if_true]⟩
    · exact ⟨a1, "No zurts were destroyed.",
        by simp only [Arena.moveZurts, hl, hlt, if_false], hg, hr, hc, hp, hz,
        by simp only [hlt, if_false]⟩

/-! ## Steps of a single zurt -/

theorem forceMove_eq (z : Zurt) (a : Arena) (dir : Int) :
    z.forceMove a dir =
      if z.m_health = 0 then some z
      else (attemptMove a dir z.m_row z.m_col).map (fun res =>
        if res.1 = true then { z with m_row := res.2.1, m_col := res.2.2 }
        else { z with m_row := res.2.1, m_col := res.2.2, m_health := z.m_health - 1 }) := by
  unfold Zurt.forceMove Zurt.isDead
  by_cases h : z.m_health = 0
  · simp [h]
  · simp only [h, decide_False, Bool.not_false, if_true, if_false]
    cases hm : attemptMove a dir z.m_row z.m_col with
    | none => rfl
    | some res =>
      obtain ⟨b, r, c⟩ := res
      cases b <;> simp

theorem move_eq (z : Zurt) (a : Arena) (g : Rng) :
    z.move a g =
      if z.m_health = 0 then some (z, g)
      else (attemptMove a (randInt 0 (NUMDIRS - 1) g).1 z.m_row z.m_col).map (fun res =>
        ({ z with m_row := res.2.1, m_col := res.2.2 }, (randInt 0 (NUMDIRS - 1) g).2)) := by
  unfold Zurt.move Zurt.isDead
  by_cases h : z.m_health = 0
  · simp [h]
  · simp only [h, decide_False, Bool.not_false, if_true, if_false]
    cases hm : attemptMove a (randInt 0 (NUMDIRS - 1) g).1 z.m_row z.m_col with
    | none => rfl
    | some res => rfl

/-- The position that `attemptMove` returns is the position given or a cell
of the arena. -/
theorem attemptMove_pos (a : Arena) (dir r c : Int) (b : Bool) (r1 c1 : Int)
    (h : attemptMove a dir r c = some (b, r1, c1)) :
    (r1 = r ∧ c1 = c) ∨ a.isPosInBounds r1 c1 = true := by
  unfold attemptMove at h
  cases hsw : switchDir a dir r c with
  | none =>
    rw [hsw] at h
    simp only [Option.some.injEq, Prod.mk.injEq] at h
    exact Or.inl ⟨h.2.1.symm, h.2.2.symm⟩
  | some tgt =>
    obtain ⟨rnew, cnew⟩ := tgt
    rw [hsw] at h
    simp only at h
    cases hs : a.getCellStatus rnew cnew with
    | none => rw [hs] at h; cases h
    | some st =>
      rw [hs] at h
      simp only at h
      split at h
      · simp only [Option.some.injEq, Prod.mk.injEq] at h
        exact Or.inl ⟨h.2.1.symm, h.2.2.symm⟩
      · simp only [Option.some.injEq, Prod.mk.injEq] at h
        obtain ⟨_, h1, h2⟩ := h
        subst h1; subst h2
        exact Or.inr (getCellStatus_eq_some a _ _ st hs).1

/-- What a step of `moveZurts` does to one zurt: the colour is kept, the health
is kept or lowered by one, and a zurt of the arena stays in the arena. -/
theorem stepZurt_facts (a : Arena) (wf : Bool) (color : Char) (dir : Int)
    (z z1 : Zurt) (g g1 : Rng) (h : stepZurt a wf color dir z g = some (z1, g1)) :
    z1.m_color = z.m_color ∧
    (z1.m_health = z.m_health ∨ (z.m_health ≠ 0 ∧ z1.m_health = z.m_health - 1)) ∧
    (a.isPosInBounds z.m_row z.m_col = true → a.isPosInBounds z1.m_row z1.m_col = true) := by
  unfold stepZurt at h
  split at h
  · rw [forceMove_eq] at h
    by_cases h0 : z.m_health = 0
    · simp only [h0, if_true, Option.some.injEq, Prod.mk.injEq] at h
      obtain ⟨h1, _⟩ := h
      subst h1
      exact ⟨rfl, Or.inl rfl, id⟩
    · simp only [h0, if_false] at h
      cases hm : attemptMove a dir z.m_row z.m_col with
      | none => rw [hm] at h; cases h
      | some res =>
        obtain ⟨b, r, c⟩ := res
        rw [hm] at h
        have hpos := attemptMove_pos a dir _ _ b r c hm
        cases b
        · simp only [Option.map_some', Bool.false_eq_true, if_false, Option.some.injEq,
            Prod.mk.injEq] at h
          obtain ⟨h1, _⟩ := h
          subst h1
          refine ⟨rfl, Or.inr ⟨h0, rfl⟩, fun hb => ?_⟩
          rcases hpos with ⟨e1, e2⟩ | hin
          · simpa [e1, e2] using hb
          · exact hin
        · simp only [Option.map_some', if_true, Option.some.injEq, Prod.mk.injEq] at h
          obtain ⟨h1, _⟩ := h
          subst h1
          refine ⟨rfl, Or.inl rfl, fun hb => ?_⟩
          rcases hpos with ⟨e1, e2⟩ | hin
          · simpa [e1, e2] using hb
          · exact hin
  · rw [move_eq] at h
    by_cases h0 : z.m_health = 0
    · simp only [h0, if_true, Option.some.injEq, Prod.mk.injEq] at h
      obtain ⟨h1, _⟩ := h
      subst h1
      exact ⟨rfl, Or.inl rfl, id⟩
    · simp only [h0, if_false] at h
      cases hm : attemptMove a (randInt 0 (NUMDIRS - 1) g).1 z.m_row z.m_col with
      | none => rw [hm] at h; cases h
      | some res =>
        obtain ⟨b, r, c⟩ := res
        rw [hm] at h
        have hpos := attemptMove_pos a _ _ _ b r c hm
        simp only [Option.map_some', Option.some.injEq, Prod.mk.injEq] at h
        obtain ⟨h1, _⟩ := h
        subst h1
        refine ⟨rfl, Or.inl rfl, fun hb => ?_⟩
        rcases hpos with ⟨e1, e2⟩ | hin
        · simpa [e1, e2] using hb
        · exact hin

/-- A zurt standing in the arena steps without the fatal exit. -/
theorem stepZurt_isSome (a : Arena) (wf : Bool) (color : Char) (dir : Int)
    (z : Zurt) (g : Rng) (hb : a.isPosInBounds z.m_row z.m_col = true) :
    ∃ z1 g1, stepZurt a wf color dir z g = some (z1, g1) := by
  unfold stepZurt
  split
  · rw [forceMove_eq]
    by_cases h0 : z.m_health = 0
    · exact ⟨z, g, by simp [h0]⟩
    · rw [attemptMove_eq a dir _ _ hb]
      simp [h0]
  · rw [move_eq]
    by_cases h0 : z.m_health = 0
    · exact ⟨z, g, by simp [h0]⟩
    · rw [attemptMove_eq a _ _ _ hb]
      simp [h0]

/-! ## Stepping the whole collection -/

theorem stepSeq_forall₂ (a : Arena) (wf : Bool) (color : Char) (dir : Int)
    (zs : List Zurt) : ∀ (g : Rng) (zs1 : List Zurt) (g1 : Rng),
    stepSeq a wf color dir zs g = some (zs1, g1) →
    List.Forall₂ (fun z z1 => ∃ g2 g3, stepZurt a wf color dir z g2 = some (z1, g3)) zs zs1 := by
  induction zs with
  | nil =>
    intro g zs1 g1 h
    simp only [stepSeq, Option.some.injEq, Prod.mk.injEq] at h
    rw [← h.1]
    exact List.Forall₂.nil
  | cons z zs ih =>
    intro g zs1 g1 h
    cases hs : stepZurt a wf color dir z g with
    | none => simp [stepSeq, hs] at h
    | some res =>
      obtain ⟨z1, g2⟩ := res
      cases hr : stepSeq a wf color dir zs g2 with
      | none => simp [stepSeq, hs, hr] at h
      | some res2 =>
        obtain ⟨rs, g3⟩ := res2
        simp only [stepSeq, hs, hr, Option.some.injEq, Prod.mk.injEq] at h
        rw [← h.1]
        exact List.Forall₂.cons ⟨g, g2, hs⟩ (ih g2 rs g3 hr)

theorem stepSeq_mem (a : Arena) (wf : Bool) (color : Char) (dir : Int)
    (zs zs1 : List Zurt) (g g1 : Rng) (h : stepSeq a wf color dir zs g = some (zs1, g1))
    (z1 : Zurt) (hz : z1 ∈ zs1) :
    ∃ z ∈ zs, ∃ g2 g3, stepZurt a wf color dir z g2 = some (z1, g3) := by
  have hf := stepSeq_forall₂ a wf color dir zs g zs1 g1 h
  clear h
  induction hf with
  | nil => cases hz
  | cons hhead _ ih =>
    rcases List.mem_cons.1 hz with e | hm
    · subst e
      obtain ⟨g2, g3, hs⟩ := hhead
      exact ⟨_, List.mem_cons_self _ _, g2, g3, hs⟩
    · obtain ⟨z, hzmem, hrest⟩ := ih hm
      exact ⟨z, List.mem_cons_of_mem _ hzmem, hrest⟩

theorem stepSeq_length (a : Arena) (wf : Bool) (color : Char) (dir : Int)
    (zs zs1 : List Zurt) (g g1 : Rng) (h : stepSeq a wf color dir zs g = some (zs1, g1)) :
    zs1.length = zs.length :=
  (List.Forall₂.length_eq (stepSeq_forall₂ a wf color dir zs g zs1 g1 h)).symm

theorem stepSeq_isSome (a : Arena) (wf : Bool) (color : Char) (dir : Int)
    (zs : List Zurt) (hb : ∀ z ∈ zs, a.isPosInBounds z.m_row z.m_col = true) :
    ∀ g : Rng, ∃ zs1 g1, stepSeq a wf color dir zs g = some (zs1, g1) := by
  induction zs with
  | nil => intro g; exact ⟨[], g, rfl⟩
  | cons z zs ih =>
    intro g
    obtain ⟨z1, g2, hs⟩ := stepZurt_isSome a wf color dir z g (hb z (List.mem_cons_self _ _))
    obtain ⟨rs, g3, hr⟩ := ih (fun y hy => hb y (List.mem_cons_of_mem _ hy)) g2
    exact ⟨z1 :: rs, g3, by simp only [stepSeq, hs, hr]⟩

/-- The player after `hitPlayer` has been applied for each zurt of a list:
the position is kept, and the player is dead when dead before or when one of
the zurts stands on the player's cell. -/
theorem foldl_hitPlayer (zs : List Zurt) : ∀ pl : Option Player,
    zs.foldl hitPlayer pl = pl.map (fun p =>
      { p with m_dead := p.m_dead ||
          zs.any (fun z => decide (z.m_row = p.m_row ∧ z.m_col = p.m_col)) }) := by
  induction zs with
  | nil =>
    intro pl
    cases pl <;> simp
  | cons z zs ih =>
    intro pl
    rw [List.foldl_cons, ih]
    cases pl with
    | none => rfl
    | some p =>
      simp only [hitPlayer, Zurt.row, Zurt.col, Player.row, Player.col, Player.setDead]
      by_cases hh : z.m_row = p.m_row ∧ z.m_col = p.m_col
      · simp [hh]
      · simp only [hh, if_false, Option.map_some', List.any_cons, decide_False, Bool.false_or]

/-- After `moveZurts` no zurt of the collection has health 0, every zurt of
the collection is a zurt of the collection before the call after one step,
and the collection has not grown. -/
theorem moveZurts_mem (a a1 : Arena) (color : Char) (dir : Int) (g g1 : Rng) (msg : String)
    (h : a.moveZurts color dir g = some (a1, msg, g1)) :
    a1.m_grid = a.m_grid ∧ a1.m_rows = a.m_rows ∧ a1.m_cols = a.m_cols ∧
    (∀ p1, a1.m_player = some p1 →
      ∃ p, a.m_player = some p ∧ p1.m_row = p.m_row ∧ p1.m_col = p.m_col) ∧
    a1.m_zurts.length ≤ a.m_zurts.length ∧
    (∀ z1 ∈ a1.m_zurts, z1.m_health ≠ 0 ∧
      ∃ z ∈ a.m_zurts, ∃ wf g2 g3, stepZurt a wf color dir z g2 = some (z1, g3)) := by
  obtain ⟨hn, hs⟩ := moveZurts_spec a color dir g
  cases hseq : stepSeq a (decide ((randInt 0 1 g).1 = 0)) color dir a.m_zurts.reverse
      (randInt 0 1 g).2 with
  | none => rw [hn hseq] at h; cases h
  | some res =>
    obtain ⟨stepped, g2⟩ := res
    obtain ⟨a2, msg2, hm, hg, hr, hc, hp, hz, _⟩ := hs stepped g2 hseq
    rw [hm] at h
    simp only [Option.some.injEq, Prod.mk.injEq] at h
    obtain ⟨e1, _, _⟩ := h
    subst e1
    refine ⟨hg, hr, hc, ?_, ?_, ?_⟩
    · intro p1 hp1
      rw [hp, foldl_hitPlayer] at hp1
      cases hpl : a.m_player with
      | none => rw [hpl] at hp1; cases hp1
      | some p =>
        rw [hpl] at hp1
        simp only [Option.map_some', Option.some.injEq] at hp1
        subst hp1
        exact ⟨p, rfl, rfl, rfl⟩
    · rw [hz.length_eq]
      have hlen := stepSeq_length a _ color dir _ _ _ _ hseq
      rw [List.length_reverse] at hlen
      rw [← hlen]
      exact List.length_filter_le _ _
    · intro z1 hz1
      have hmem := (hz.mem_iff).1 hz1
      rw [List.mem_filter] at hmem
      obtain ⟨hin, halive⟩ := hmem
      constructor
      · simpa [Zurt.isDead] using halive
      · obtain ⟨z, hzm, g3, g4, hst⟩ := stepSeq_mem a _ color dir _ _ _ _ hseq z1 hin
        exact ⟨z, List.mem_reverse.1 hzm, _, g3, g4, hst⟩

/-! ## Invariants of the reachable states -/

theorem setCellStatus_frame (a a1 : Arena) (r c status : Int)
    (h : a.setCellStatus r c status = some a1) :
    a1.m_rows = a.m_rows ∧ a1.m_cols = a.m_cols ∧ a1.m_player = a.m_player ∧
      a1.m_zurts = a.m_zurts := by
  unfold Arena.setCellStatus at h
  cases hc : a.checkPos r c with
  | none => rw [hc] at h; cases h
  | some u =>
    rw [hc] at h
    simp only [Option.some.injEq] at h
    subst h
    exact ⟨rfl, rfl, rfl, rfl⟩

theorem foldlM_frame {β : Type} (f : Arena → β → Option Arena)
    (hf : ∀ a b a1, f a b = some a1 →
      a1.m_rows = a.m_rows ∧ a1.m_cols = a.m_cols ∧ a1.m_player = a.m_player ∧
        a1.m_zurts = a.m_zurts)
    (l : List β) : ∀ a a1, l.foldlM f a = some a1 →
      a1.m_rows = a.m_rows ∧ a1.m_cols = a.m_cols ∧ a1.m_player = a.m_player ∧
        a1.m_zurts = a.m_zurts := by
  induction l with
  | nil =>
    intro a a1 h
    simp only [List.foldlM, pure, Option.some.injEq] at h
    subst h
    exact ⟨rfl, rfl, rfl, rfl⟩
  | cons b l ih =>
    intro a a1 h
    rw [List.foldlM_cons] at h
    cases hb : f a b with
    | none => rw [hb] at h; cases h
    | some a2 =>
      rw [hb] at h
      obtain ⟨h1, h2, h3, h4⟩ := hf a b a2 hb
      obtain ⟨k1, k2, k3, k4⟩ := ih a2 a1 h
      exact ⟨k1.trans h1, k2.trans h2, k3.trans h3, k4.trans h4⟩

theorem create_frame (nRows nCols : Int) (uninit : Int → Int → Int) (a : Arena)
    (h : Arena.create nRows nCols uninit = some a) :
    (1 ≤ nRows ∧ nRows ≤ MAXROWS ∧ 1 ≤ nCols ∧ nCols ≤ MAXCOLS) ∧
    a.m_rows = nRows ∧ a.m_cols = nCols ∧ a.m_player = none ∧ a.m_zurts = [] := by
  unfold Arena.create at h
  split at h
  · cases h
  · rename_i hsize
    have hfr := foldlM_frame
      (fun (a : Arena) (r : Int) =>
        (intRange 1 a.m_cols).foldlM (fun a c => a.setCellStatus r c EMPTY) a)
      (fun a r a1 hh => foldlM_frame (fun a c => a.setCellStatus r c EMPTY)
        (fun a c a1 hh => setCellStatus_frame a a1 r c EMPTY hh) _ a a1 hh)
      _ _ a h
    simp only at hfr
    refine ⟨?_, hfr.1, hfr.2.1, hfr.2.2.1, hfr.2.2.2⟩
    omega

theorem wf_of_frame (a a1 : Arena) (hw : a.WF)
    (h : a1.m_rows = a.m_rows ∧ a1.m_cols = a.m_cols ∧ a1.m_player = a.m_player ∧
      a1.m_zurts = a.m_zurts) : a1.WF := by
  obtain ⟨h1, h2, h3, h4⟩ := h
  simpa only [Arena.WF, Arena.zurtCount, Arena.isPosInBounds, h1, h2, h3, h4] using hw

theorem addZurt_cases (a a1 : Arena) (r c : Int) (color : Char) (b : Bool)
    (h : a.addZurt r c color = some (a1, b)) :
    (a1 = a ∧ b = false) ∨
    (b = true ∧ a.isPosInBounds r c = true ∧ a.zurtCount ≠ MAXZURTS ∧
      a1 = { a with m_zurts := a.m_zurts ++
        [{ m_row := r, m_col := c, m_color := color, m_health := ZURT_HEALTH }] }) := by
  unfold Arena.addZurt at h
  split at h
  · simp only [Option.some.injEq, Prod.mk.injEq] at h
    exact Or.inl ⟨h.1.symm, h.2.symm⟩
  · rename_i hb0
    have hb : a.isPosInBounds r c = true := by simpa using hb0
    rw [getCellStatus_of_inBounds a r c hb] at h
    simp only at h
    split at h
    · simp only [Option.some.injEq, Prod.mk.injEq] at h
      exact Or.inl ⟨h.1.symm, h.2.symm⟩
    · split at h
      · simp only [Option.some.injEq, Prod.mk.injEq] at h
        exact Or.inl ⟨h.1.symm, h.2.symm⟩
      · split at h
        · simp only [Option.some.injEq, Prod.mk.injEq] at h
          exact Or.inl ⟨h.1.symm, h.2.symm⟩
        · split at h
          · simp only [Option.some.injEq, Prod.mk.injEq] at h
            exact Or.inl ⟨h.1.symm, h.2.symm⟩
          · rename_i hcol hcount
            have hcr : Zurt.create a r c color =
                some { m_row := r, m_col := c, m_color := color, m_health := ZURT_HEALTH } := by
              rw [isPosInBounds_iff] at hb
              unfold Zurt.create
              rw [if_neg (by simp only [Arena.rows, Arena.cols]; omega), if_neg hcol]
            rw [hcr] at h
            simp only [Option.some.injEq, Prod.mk.injEq] at h
            exact Or.inr ⟨h.2.symm, hb, hcount, h.1.symm⟩

theorem addPlayer_cases (a a1 : Arena) (r c : Int) (b : Bool)
    (h : a.addPlayer r c = some (a1, b)) :
    (a1 = a ∧ b = false) ∨
    (b = true ∧ a.isPosInBounds r c = true ∧
      a1 = { a with m_player := some { m_row := r, m_col := c, m_dead := false } }) := by
  unfold Arena.addPlayer at h
  split at h
  · simp only [Option.some.injEq, Prod.mk.injEq] at h
    exact Or.inl ⟨h.1.symm, h.2.symm⟩
  · split at h
    · simp only [Option.some.injEq, Prod.mk.injEq] at h
      exact Or.inl ⟨h.1.symm, h.2.symm⟩
    · rename_i hb0
      have hb : a.isPosInBounds r c = true := by simpa using hb0
      rw [getCellStatus_of_inBounds a r c hb] at h
      simp only at h
      split at h
      · simp only [Option.some.injEq, Prod.mk.injEq] at h
        exact Or.inl ⟨h.1.symm, h.2.symm⟩
      · split at h
        · simp only [Option.some.injEq, Prod.mk.injEq] at h
          exact Or.inl ⟨h.1.symm, h.2.symm⟩
        · have hcr : Player.create a r c =
              some { m_row := r, m_col := c, m_dead := false } := by
            rw [isPosInBounds_iff] at hb
            unfold Player.create
            rw [if_neg (by simp only [Arena.rows, Arena.cols]; omega)]
          rw [hcr] at h
          simp only [Option.some.injEq, Prod.mk.injEq] at h
          exact Or.inr ⟨h.2.symm, hb, h.1.symm⟩

theorem playerMove_pos (p p1 : Player) (a : Arena) (dir : Int) (msg : String)
    (h : p.move a dir = some (p1, msg)) :
    (p1.m_row = p.m_row ∧ p1.m_col = p.m_col) ∨ a.isPosInBounds p1.m_row p1.m_col = true := by
  unfold Player.move at h
  cases hm : attemptMove a dir p.m_row p.m_col with
  | none => rw [hm] at h; cases h
  | some res =>
    obtain ⟨b, r, c⟩ := res
    rw [hm] at h
    have hpos := attemptMove_pos a dir _ _ b r c hm
    cases b
    · simp only [Option.some.injEq, Prod.mk.injEq] at h
      rw [← h.1]
      exact hpos
    · simp only at h
      split at h
      · simp only [Option.some.injEq, Prod.mk.injEq] at h
        rw [← h.1]
        exact hpos
      · simp only [Option.some.injEq, Prod.mk.injEq] at h
        rw [← h.1]
        exact hpos

theorem moveZurts_wf (a a1 : Arena) (color : Char) (dir : Int) (g g1 : Rng) (msg : String)
    (hw : a.WF) (h : a.moveZurts color dir g = some (a1, msg, g1)) : a1.WF := by
  obtain ⟨hg, hr, hc, hp, hlen, hz⟩ := moveZurts_mem a a1 color dir g g1 msg h
  obtain ⟨w1, w2, w3, w4⟩ := hw
  refine ⟨by rw [hr, hc]; exact w1, ?_, ?_, ?_⟩
  · unfold Arena.zurtCount at w2 ⊢
    have : (a1.m_zurts.length : Int) ≤ (a.m_zurts.length : Int) := by exact_mod_cast hlen
    omega
  · intro z1 hz1
    obtain ⟨hne, z, hzm, wf, g2, g3, hst⟩ := hz z1 hz1
    obtain ⟨_, hh, hb⟩ := stepZurt_facts a wf color dir z z1 g2 g3 hst
    obtain ⟨wb, wl, wu⟩ := w3 z hzm
    have hb1 := hb wb
    refine ⟨?_, ?_, ?_⟩
    · simpa only [Arena.isPosInBounds, hr, hc] using hb1
    · omega
    · omega
  · intro p1 hp1
    obtain ⟨p, hpp, e1, e2⟩ := hp p1 hp1
    have := w4 p hpp
    simpa only [Arena.isPosInBounds, hr, hc, e1, e2] using this

/-- Every reachable arena is well formed. -/
theorem reachable_wf (a : Arena) (h : Reachable a) : a.WF := by
  induction h with
  | construct nRows nCols uninit a hc =>
    obtain ⟨hsz, h1, h2, h3, h4⟩ := create_frame nRows nCols uninit a hc
    refine ⟨by rw [h1, h2]; exact hsz, ?_, ?_, ?_⟩
    · simp [Arena.zurtCount, h4, MAXZURTS]
    · intro z hz; rw [h4] at hz; cases hz
    · intro p hp; rw [h3] at hp; cases hp
  | setCellStatus a a1 r c status _ hs ih =>
    exact wf_of_frame a a1 ih (setCellStatus_frame a a1 r c status hs)
  | addZurt a a1 r c color b _ hs ih =>
    rcases addZurt_cases a a1 r c color b hs with ⟨e, _⟩ | ⟨_, hb, hcount, e⟩
    · rw [e]; exact ih
    · obtain ⟨w1, w2, w3, w4⟩ := ih
      subst e
      refine ⟨w1, ?_, ?_, w4⟩
      · simp only [Arena.zurtCount, List.length_append, List.length_singleton] at w2 hcount ⊢
        push_cast
        omega
      · intro z hz
        rcases List.mem_append.1 hz with hm | hm
        · exact w3 z hm
        · rw [List.mem_singleton] at hm
          subst hm
          exact ⟨hb, by simp [ZURT_HEALTH], by simp⟩
  | addPlayer a a1 r c b _ hs ih =>
    rcases addPlayer_cases a a1 r c b hs with ⟨e, _⟩ | ⟨_, hb, e⟩
    · rw [e]; exact ih
    · obtain ⟨w1, w2, w3, w4⟩ := ih
      subst e
      refine ⟨w1, w2, w3, ?_⟩
      intro p hp
      simp only [Option.some.injEq] at hp
      rw [← hp]
      exact hb
  | playerMove a p p1 dir msg _ hp hm ih =>
    obtain ⟨w1, w2, w3, w4⟩ := ih
    refine ⟨w1, w2, w3, ?_⟩
    intro q hq
    simp only [Option.some.injEq] at hq
    rw [← hq]
    rcases playerMove_pos p p1 a dir msg hm with ⟨e1, e2⟩ | hin
    · have := w4 p hp
      simpa only [Arena.isPosInBounds, e1, e2] using this
    · exact hin
  | playerStand a p _ hp ih =>
    obtain ⟨w1, w2, w3, w4⟩ := ih
    refine ⟨w1, w2, w3, ?_⟩
    intro q hq
    simp only [Option.some.injEq, Player.stand] at hq
    rw [← hq]
    exact w4 p hp
  | moveZurts a a1 color dir g g1 msg _ hm ih =>
    exact moveZurts_wf a a1 color dir g g1 msg ih hm

theorem arenaFresh12_created : Arena.create 1 2 (fun _ _ => 7) = some arenaFresh12 := rfl

theorem arenaOneZurt12_added : arenaFresh12.addZurt 1 2 'R' = some (arenaOneZurt12, true) := rfl

theorem arenaOneZurt12_reachable : Reachable arenaOneZurt12 :=
  Reachable.addZurt arenaFresh12 arenaOneZurt12 1 2 'R' true
    (Reachable.construct 1 2 (fun _ _ => 7) arenaFresh12 arenaFresh12_created)
    arenaOneZurt12_added

/-! ## The danger of a cell -/

theorem countP_four_le (zs : List Zurt) (r c : Int) :
    zs.countP (fun z => decide (z.m_row = r - 1 ∧ z.m_col = c)) +
    zs.countP (fun z => decide (z.m_row = r + 1 ∧ z.m_col = c)) +
    zs.countP (fun z => decide (z.m_row = r ∧ z.m_col = c - 1)) +
    zs.countP (fun z => decide (z.m_row = r ∧ z.m_col = c + 1)) ≤ zs.length := by
  induction zs with
  | nil => simp
  | cons z zs ih =>
    simp only [List.countP_cons, List.length_cons, decide_eq_true_eq]
    split_ifs <;> omega

/-- The four neighbours of a cell hold at most as many zurts as there are. -/
theorem neighbours_le_zurtCount (a : Arena) (r c : Int) :
    a.numberOfZurtsAt (r - 1) c + a.numberOfZurtsAt (r + 1) c +
      a.numberOfZurtsAt r (c - 1) + a.numberOfZurtsAt r (c + 1) ≤ a.zurtCount := by
  simp only [numberOfZurtsAt_eq_countP, Arena.zurtCount]
  exact_mod_cast countP_four_le a.m_zurts r c

/-- No zurt stands on a cell outside the arena when every zurt stands in the
arena. -/
theorem numberOfZurtsAt_outside (a : Arena)
    (hz : ∀ z ∈ a.m_zurts, a.isPosInBounds z.m_row z.m_col = true) (r c : Int)
    (hout : a.isPosInBounds r c = false) : a.numberOfZurtsAt r c = 0 := by
  rw [numberOfZurtsAt_eq_countP]
  have : a.m_zurts.countP (fun z => decide (z.m_row = r ∧ z.m_col = c)) = 0 := by
    rw [List.countP_eq_zero]
    intro z hzm
    simp only [decide_eq_true_eq]
    rintro ⟨e1, e2⟩
    have := hz z hzm
    rw [e1, e2, hout] at this
    cases this
  rw [this]
  rfl

theorem computeDanger_gt_iff (a : Arena) (hcount : a.zurtCount ≤ MAXZURTS) (r c : Int) :
    computeDanger a r c > 100 ↔ a.numberOfZurtsAt r c > 0 := by
  have h0 := numberOfZurtsAt_nonneg a r c
  have h1 := numberOfZurtsAt_nonneg a (r - 1) c
  have h2 := numberOfZurtsAt_nonneg a (r + 1) c
  have h3 := numberOfZurtsAt_nonneg a r (c - 1)
  have h4 := numberOfZurtsAt_nonneg a r (c + 1)
  have hsum := neighbours_le_zurtCount a r c
  unfold computeDanger
  simp only [MAXZURTS] at hcount ⊢
  by_cases hpos : a.numberOfZurtsAt r c > 0
  · simp [hpos]
  · simp only [hpos, if_false, iff_false, not_lt, gt_iff_lt]
    split_ifs <;> omega

theorem computeDanger_eq_neighbourSum (a : Arena)
    (hz : ∀ z ∈ a.m_zurts, a.isPosInBounds z.m_row z.m_col = true) (r c : Int)
    (h0 : a.numberOfZurtsAt r c = 0) : computeDanger a r c = neighbourSum a r c := by
  have key : ∀ r1 c1 : Int, (P : Prop) → [Decidable P] →
      (a.isPosInBounds r1 c1 = true → P) →
      (if P then a.numberOfZurtsAt r1 c1 else 0) =
        (if a.isPosInBounds r1 c1 = true then a.numberOfZurtsAt r1 c1 else 0) := by
    intro r1 c1 P _ hP
    by_cases hb : a.isPosInBounds r1 c1 = true
    · simp [hb, hP hb]
    · have hb1 : a.isPosInBounds r1 c1 = false := by simpa using hb
      simp [hb, numberOfZurtsAt_outside a hz r1 c1 hb1]
  have e1 := key (r - 1) c (r > 1) (by rw [isPosInBounds_iff]; omega)
  have e2 := key (r + 1) c (r < a.rows) (by rw [isPosInBounds_iff, Arena.rows]; omega)
  have e3 := key r (c - 1) (c > 1) (by rw [isPosInBounds_iff]; omega)
  have e4 := key r (c + 1) (c < a.cols) (by rw [isPosInBounds_iff, Arena.cols]; omega)
  have hsum : neighbourSum a r c =
      (if a.isPosInBounds (r - 1) c = true then a.numberOfZurtsAt (r - 1) c else 0) +
      (if a.isPosInBounds (r + 1) c = true then a.numberOfZurtsAt (r + 1) c else 0) +
      (if a.isPosInBounds r (c - 1) = true then a.numberOfZurtsAt r (c - 1) else 0) +
      (if a.isPosInBounds r (c + 1) = true then a.numberOfZurtsAt r (c + 1) else 0) := by
    unfold neighbourSum neighbours
    simp only [List.filter_cons, List.filter_nil]
    split_ifs <;> simp <;> ring
  rw [hsum, ← e1, ← e2, ← e3, ← e4]
  unfold computeDanger
  simp only [h0, gt_iff_lt, lt_self_iff_false, if_false]
  split_ifs <;> ring

/-! ## Moves that succeed -/

/-- A successful `attemptMove` ends on the cell one step away, which is a cell
of the arena that is not a wall. -/
theorem attemptMove_true (a : Arena) (dir r c r1 c1 : Int)
    (h : attemptMove a dir r c = some (true, r1, c1)) :
    (r1, c1) = adjacent dir r c ∧ a.isPosInBounds r1 c1 = true ∧
      a.m_grid (r1 - 1) (c1 - 1) ≠ WALL := by
  unfold attemptMove at h
  cases hsw : switchDir a dir r c with
  | none => rw [hsw] at h; simp at h
  | some tgt =>
    obtain ⟨rnew, cnew⟩ := tgt
    rw [hsw] at h
    simp only at h
    have hadj : (rnew, cnew) = adjacent dir r c := by
      unfold switchDir at hsw
      unfold adjacent
      split_ifs at hsw ⊢ <;> exact (Option.some.inj hsw).symm
    cases hs : a.getCellStatus rnew cnew with
    | none => rw [hs] at h; cases h
    | some st =>
      rw [hs] at h
      obtain ⟨hb, hst⟩ := getCellStatus_eq_some a rnew cnew st hs
      simp only at h
      split at h
      · simp at h
      · rename_i hw
        simp only [Option.some.injEq, Prod.mk.injEq, true_and] at h
        obtain ⟨e1, e2⟩ := h
        subst e1; subst e2
        exact ⟨hadj, hb, by rw [← hst]; exact hw⟩

/-! ## The scan of `recommendMove` -/

/-- The scan of `recommendMove` from a cell of the arena over the directions
`dirs`, started with `best`: it returns; the danger it returns is at most the
initial one and at most the danger of every legal move of `dirs`; and either
nothing has changed or the result is a legal move of `dirs` of strictly
smaller danger than the initial one, with every legal move before it in
`dirs` strictly more dangerous. -/
theorem recommendLoop_spec (a : Arena) (r c : Int) (hb : a.isPosInBounds r c = true)
    (dirs : List Int) : ∀ best : Int × Int,
    ∃ res, recommendLoop a r c dirs best = some res ∧
      res.1 ≤ best.1 ∧
      (∀ x ∈ dirs, ∀ r1 c1, attemptMove a x r c = some (true, r1, c1) →
        res.1 ≤ computeDanger a r1 c1) ∧
      (res = best ∨
        (res.1 < best.1 ∧ ∃ front back r1 c1, dirs = front ++ res.2 :: back ∧
          attemptMove a res.2 r c = some (true, r1, c1) ∧
          computeDanger a r1 c1 = res.1 ∧
          ∀ x ∈ front, ∀ r2 c2, attemptMove a x r c = some (true, r2, c2) →
            res.1 < computeDanger a r2 c2)) := by
  induction dirs with
  | nil =>
    intro best
    exact ⟨best, rfl, le_refl _, (fun x hx => by cases hx), Or.inl rfl⟩
  | cons d dirs ih =>
    intro best
    obtain ⟨b, r1, c1, hat⟩ : ∃ b r1 c1, attemptMove a d r c = some (b, r1, c1) :=
      ⟨_, _, _, attemptMove_eq a d r c hb⟩
    cases b with
    | false =>
      obtain ⟨res, hres, hle, hall, hcase⟩ := ih best
      refine ⟨res, by simp only [recommendLoop, hat, hres], hle, ?_, ?_⟩
      · intro x hx r2 c2 hx2
        rcases List.mem_cons.1 hx with e | hm
        · subst e; rw [hat] at hx2; simp at hx2
        · exact hall x hm r2 c2 hx2
      · rcases hcase with e | ⟨hlt, front, back, r3, c3, hsplit, hlegal, hdanger, hfront⟩
        · exact Or.inl e
        · refine Or.inr ⟨hlt, d :: front, back, r3, c3, by rw [hsplit]; rfl, hlegal,
            hdanger, ?_⟩
          intro x hx r2 c2 hx2
          rcases List.mem_cons.1 hx with e | hm
          · subst e; rw [hat] at hx2; simp at hx2
          · exact hfront x hm r2 c2 hx2
    | true =>
      by_cases hlt0 : computeDanger a r1 c1 < best.1
      · obtain ⟨res, hres, hle, hall, hcase⟩ := ih (computeDanger a r1 c1, d)
        simp only at hle hcase
        refine ⟨res, by simp only [recommendLoop, hat, hlt0, if_true, hres], by omega, ?_, ?_⟩
        · intro x hx r2 c2 hx2
          rcases List.mem_cons.1 hx with e | hm
          · subst e
            rw [hat] at hx2
            simp only [Option.some.injEq, Prod.mk.injEq, true_and] at hx2
            rw [← hx2.1, ← hx2.2]
            exact hle
          · exact hall x hm r2 c2 hx2
        · right
          rcases hcase with e | ⟨hlt, front, back, r3, c3, hsplit, hlegal, hdanger, hfront⟩
          · rw [e]
            exact ⟨hlt0, [], dirs, r1, c1, rfl, hat, rfl, (fun x hx => by cases hx)⟩
          · refine ⟨by omega, d :: front, back, r3, c3, by rw [hsplit]; rfl, hlegal,
              hdanger, ?_⟩
            intro x hx r2 c2 hx2
            rcases List.mem_cons.1 hx with e | hm
            · subst e
              rw [hat] at hx2
              simp only [Option.some.injEq, Prod.mk.injEq, true_and] at hx2
              rw [← hx2.1, ← hx2.2]
              exact hlt
            · exact hfront x hm r2 c2 hx2
      · obtain ⟨res, hres, hle, hall, hcase⟩ := ih best
        refine ⟨res, by simp only [recommendLoop, hat, hlt0, if_false, hres], hle, ?_, ?_⟩
        · intro x hx r2 c2 hx2
          rcases List.mem_cons.1 hx with e | hm
          · subst e
            rw [hat] at hx2
            simp only [Option.some.injEq, Prod.mk.injEq, true_and] at hx2
            rw [← hx2.1, ← hx2.2]
            omega
          · exact hall x hm r2 c2 hx2
        · rcases hcase with e | ⟨hlt, front, back, r3, c3, hsplit, hlegal, hdanger, hfront⟩
          · exact Or.inl e
          · refine Or.inr ⟨hlt, d :: front, back, r3, c3, by rw [hsplit]; rfl, hlegal,
              hdanger, ?_⟩
            intro x hx r2 c2 hx2
            rcases List.mem_cons.1 hx with e | hm
            · subst e
              rw [hat] at hx2
              simp only [Option.some.injEq, Prod.mk.injEq, true_and] at hx2
              rw [← hx2.1, ← hx2.2]
              omega
            · exact hfront x hm r2 c2 hx2

theorem mem_scanDirs (d : Int) : d ∈ scanDirs ↔ isDir d := by
  simp [scanDirs, isDir]

/-- In a split of the scan order, the directions before `d` are the
directions smaller than `d`. -/
theorem scanDirs_front (front back : List Int) (d x : Int)
    (hsplit : scanDirs = front ++ d :: back) (hx : isDir x) (hlt : x < d) : x ∈ front := by
  have hsorted : scanDirs.Pairwise (· < ·) := by decide
  rw [hsplit, List.pairwise_append] at hsorted
  obtain ⟨_, hback, _⟩ := hsorted
  rw [List.pairwise_cons] at hback
  have hmem : x ∈ front ++ d :: back := by rw [← hsplit]; exact (mem_scanDirs x).2 hx
  rcases List.mem_append.1 hmem with h | h
  · exact h
  · rcases List.mem_cons.1 h with e | hb
    · omega
    · have := hback.1 x hb
      omega

/-- The result of `recommendMove` from a cell of the arena. -/
theorem recommendMove_cases (a : Arena) (r c bestDir : Int)
    (hb : a.isPosInBounds r c = true) :
    ∃ res, recommendLoop a r c scanDirs (computeDanger a r c, NORTH) = some res ∧
      recommendMove a r c bestDir =
        some (if computeDanger a r c > 0 ∧ res.1 < computeDanger a r c then (true, res.2)
              else (false, bestDir)) := by
  obtain ⟨res, hres, _⟩ := recommendLoop_spec a r c hb scanDirs (computeDanger a r c, NORTH)
  refine ⟨res, hres, ?_⟩
  unfold recommendMove
  simp only [hres]
  by_cases h1 : computeDanger a r c > 0
  · by_cases h2 : res.1 < computeDanger a r c
    · simp [h1, h2]
    · simp [h1, h2]
  · simp [h1]

/-! ## The claims -/

/-- C2: in a reachable arena (which holds at most `MAXZURTS = 100` zurts),
`computeDanger(r,c)` is greater than 100 exactly when `numberOfZurtsAt(r,c) > 0`,
and when no zurt stands on `(r,c)` it is the sum of `numberOfZurtsAt` over the
orthogonal neighbours of `(r,c)` that are in bounds. -/
theorem computeDanger_spec (a : Arena) (h : Reachable a) (r c : Int) :
    (computeDanger a r c > 100 ↔ a.numberOfZurtsAt r c > 0) ∧
    (a.numberOfZurtsAt r c = 0 → computeDanger a r c = neighbourSum a r c) := by
  obtain ⟨_, hcount, hz, _⟩ := reachable_wf a h
  exact ⟨computeDanger_gt_iff a hcount r c,
    computeDanger_eq_neighbourSum a (fun z hzm => (hz z hzm).1) r c⟩

/-- The theorem `computeDanger_spec` at the 1x2 arena with one zurt at (1,2):
the danger is 101 at (1,2) and 1 at (1,1). -/
theorem computeDanger_spec_witness :
    Reachable arenaOneZurt12 ∧ computeDanger arenaOneZurt12 1 2 > 100 ∧
      computeDanger arenaOneZurt12 1 1 = 1 :=
  ⟨arenaOneZurt12_reachable,
    (computeDanger_spec arenaOneZurt12 arenaOneZurt12_reachable 1 2).1.2 (by decide),
    ((computeDanger_spec arenaOneZurt12 arenaOneZurt12_reachable 1 1).2 (by decide)).trans
      (by decide)⟩

/-- C7: from a cell `(r,c)` of the arena, `attemptMove` returns true exactly
when the cell one step away in direction `dir` is inside the arena and its
status is not `WALL`; then `(r,c)` becomes that cell, and when it returns
false `(r,c)` is unchanged.  The zurts and the player of the arena play no
part in the result.  (This holds for every value of `dir`, so for the four
directions; `adjacent` gives the cell one step away.) -/
theorem attemptMove_spec (a : Arena) (dir r c : Int)
    (hb : a.isPosInBounds r c = true) :
    ∃ b r1 c1, attemptMove a dir r c = some (b, r1, c1) ∧
      (b = true ↔
        (a.isPosInBounds (adjacent dir r c).1 (adjacent dir r c).2 = true ∧
          ∃ st, a.getCellStatus (adjacent dir r c).1 (adjacent dir r c).2 = some st ∧
            st ≠ WALL)) ∧
      (b = true → (r1, c1) = adjacent dir r c) ∧
      (b = false → (r1, c1) = (r, c)) ∧
      (∀ zs pl, attemptMove { a with m_zurts := zs, m_player := pl } dir r c =
        attemptMove a dir r c) := by
  have hfree : ∀ zs pl, attemptMove { a with m_zurts := zs, m_player := pl } dir r c =
      attemptMove a dir r c :=
    fun zs pl => attemptMove_congr _ a rfl rfl rfl dir r c
  have heq := attemptMove_eq a dir r c hb
  by_cases hP : a.isPosInBounds (adjacent dir r c).1 (adjacent dir r c).2 = true ∧
      a.m_grid ((adjacent dir r c).1 - 1) ((adjacent dir r c).2 - 1) ≠ WALL
  · rw [if_pos hP] at heq
    refine ⟨true, _, _, heq, ?_, fun _ => rfl, (fun hf => by cases hf), hfree⟩
    refine ⟨fun _ => ⟨hP.1, _, getCellStatus_of_inBounds a _ _ hP.1, hP.2⟩, fun _ => rfl⟩
  · rw [if_neg hP] at heq
    refine ⟨false, _, _, heq, ?_, (fun hf => by cases hf), fun _ => rfl, hfree⟩
    constructor
    · intro hf; cases hf
    · rintro ⟨hin, st, hst, hne⟩
      exact absurd ⟨hin, by rw [← (getCellStatus_eq_some a _ _ st hst).2]; exact hne⟩ hP

/-- The theorem `attemptMove_spec` at the 1x2 arena with a wall at (1,2), from
(1,1) towards the east. -/
theorem attemptMove_spec_witness :
    arenaWall12.isPosInBounds 1 1 = true ∧
    ∃ b r1 c1, attemptMove arenaWall12 EAST 1 1 = some (b, r1, c1) ∧
      (b = true ↔
        (arenaWall12.isPosInBounds (adjacent EAST 1 1).1 (adjacent EAST 1 1).2 = true ∧
          ∃ st, arenaWall12.getCellStatus (adjacent EAST 1 1).1 (adjacent EAST 1 1).2 = some st ∧
            st ≠ WALL)) ∧
      (b = true → (r1, c1) = adjacent EAST 1 1) ∧
      (b = false → (r1, c1) = (1, 1)) ∧
      (∀ zs pl, attemptMove { arenaWall12 with m_zurts := zs, m_player := pl } EAST 1 1 =
        attemptMove arenaWall12 EAST 1 1) :=
  ⟨by decide, attemptMove_spec arenaWall12 EAST 1 1 (by decide)⟩

/-- C8: for a player standing in the arena, when the cell one step away in
direction `dir` is outside the arena or is a `WALL`, `Player::move(dir)`
returns "Player couldn't move; player stands." and the player's row, column
and dead flag are unchanged.  (This holds for every value of `dir`, so for the
four directions.) -/
theorem playerMove_blocked (a : Arena) (p : Player) (dir : Int)
    (hb : a.isPosInBounds p.m_row p.m_col = true)
    (hblock :
      a.isPosInBounds (adjacent dir p.m_row p.m_col).1 (adjacent dir p.m_row p.m_col).2 = false ∨
      a.getCellStatus (adjacent dir p.m_row p.m_col).1 (adjacent dir p.m_row p.m_col).2
        = some WALL) :
    p.move a dir = some (p, "Player couldn't move; player stands.") := by
  have heq := attemptMove_eq a dir p.m_row p.m_col hb
  have hP : ¬(a.isPosInBounds (adjacent dir p.m_row p.m_col).1
        (adjacent dir p.m_row p.m_col).2 = true ∧
      a.m_grid ((adjacent dir p.m_row p.m_col).1 - 1)
        ((adjacent dir p.m_row p.m_col).2 - 1) ≠ WALL) := by
    rintro ⟨hin, hne⟩
    rcases hblock with hout | hwall
    · rw [hin] at hout; cases hout
    · exact hne (getCellStatus_eq_some a _ _ WALL hwall).2.symm
  rw [if_neg hP] at heq
  unfold Player.move
  rw [heq]

/-- The theorem `playerMove_blocked` at the 1x2 arena with a wall at (1,2) and
the player at (1,1) moving east. -/
theorem playerMove_blocked_witness :
    arenaWall12.m_player = some { m_row := 1, m_col := 1, m_dead := false } ∧
    Player.move { m_row := 1, m_col := 1, m_dead := false } arenaWall12 EAST =
      some ({ m_row := 1, m_col := 1, m_dead := false },
        "Player couldn't move; player stands.") :=
  ⟨rfl, playerMove_blocked arenaWall12 { m_row := 1, m_col := 1, m_dead := false } EAST
    (by decide) (Or.inr (by decide))⟩

/-- C9: when the move succeeds, `Player::move(dir)` puts the player on the
cell one step away; if `numberOfZurtsAt` of that cell is at least 1 the player
is dead and the outcome is "Player walked into a zurt and died."; otherwise
the dead flag is unchanged and the outcome is "Player moved north.", "Player
moved east.", "Player moved south." or "Player moved west." according to
`dir`. -/
theorem playerMove_success (a : Arena) (p : Player) (dir r1 c1 : Int) (hd : isDir dir)
    (hm : attemptMove a dir p.m_row p.m_col = some (true, r1, c1)) :
    (r1, c1) = adjacent dir p.m_row p.m_col ∧
    (a.numberOfZurtsAt r1 c1 ≥ 1 →
      p.move a dir = some ({ m_row := r1, m_col := c1, m_dead := true },
        "Player walked into a zurt and died.")) ∧
    (a.numberOfZurtsAt r1 c1 = 0 →
      p.move a dir = some ({ m_row := r1, m_col := c1, m_dead := p.m_dead },
        if dir = NORTH then "Player moved north."
        else if dir = EAST then "Player moved east."
        else if dir = SOUTH then "Player moved south."
        else "Player moved west.")) := by
  refine ⟨(attemptMove_true a dir _ _ r1 c1 hm).1, ?_, ?_⟩
  · intro hz
    have hz1 : a.numberOfZurtsAt r1 c1 > 0 := by omega
    unfold Player.move
    rw [hm]
    simp only [hz1, if_true, Player.setDead]
  · intro hz
    have hz1 : ¬ a.numberOfZurtsAt r1 c1 > 0 := by omega
    unfold Player.move
    rw [hm]
    simp only [hz1, if_false]
    rcases hd with h | h | h | h <;> subst h <;> rfl

/-- The theorem `playerMove_success` at the open 3x3 arena with a zurt at
(2,1) and the player at (2,2): moving west kills the player, moving north
does not. -/
theorem playerMove_success_witness :
    Player.move { m_row := 2, m_col := 2, m_dead := false } arenaOpen33 WEST =
      some ({ m_row := 2, m_col := 1, m_dead := true },
        "Player walked into a zurt and died.") ∧
    Player.move { m_row := 2, m_col := 2, m_dead := false } arenaOpen33 NORTH =
      some ({ m_row := 1, m_col := 2, m_dead := false }, "Player moved north.") :=
  ⟨(playerMove_success arenaOpen33 { m_row := 2, m_col := 2, m_dead := false } WEST 2 1
      (by decide) (by decide)).2.1 (by decide),
   (playerMove_success arenaOpen33 { m_row := 2, m_col := 2, m_dead := false } NORTH 1 2
      (by decide) (by decide)).2.2 (by decide)⟩

/-- C5: for a live zurt, `forceMove(dir)` lowers the health by exactly 1 and
keeps the position when the move fails, and keeps the health and takes the
position of the move when the move succeeds (the cell one step away for a
direction); `move()` keeps the health whatever is drawn; neither operation
raises the health; and both return for a zurt standing in the arena. -/
theorem zurt_health_spec (a : Arena) (z : Zurt) (dir : Int) (hlive : z.m_health > 0) :
    (∀ r1 c1, attemptMove a dir z.m_row z.m_col = some (false, r1, c1) →
      z.forceMove a dir = some { z with m_health := z.m_health - 1 }) ∧
    (∀ r1 c1, attemptMove a dir z.m_row z.m_col = some (true, r1, c1) →
      z.forceMove a dir = some { z with m_row := r1, m_col := c1 } ∧
        (r1, c1) = adjacent dir z.m_row z.m_col) ∧
    (∀ g z1 g1, z.move a g = some (z1, g1) → z1.m_health = z.m_health) ∧
    (∀ z1, z.forceMove a dir = some z1 → z1.m_health ≤ z.m_health) ∧
    (a.isPosInBounds z.m_row z.m_col = true →
      (z.forceMove a dir).isSome = true ∧ ∀ g, (z.move a g).isSome = true) := by
  have h0 : z.m_health ≠ 0 := by omega
  refine ⟨?_, ?_, ?_, ?_, ?_⟩
  · intro r1 c1 hm
    have hpos : r1 = z.m_row ∧ c1 = z.m_col := by
      unfold attemptMove at hm
      cases hsw : switchDir a dir z.m_row z.m_col with
      | none =>
        rw [hsw] at hm
        simp only [Option.some.injEq, Prod.mk.injEq, true_and] at hm
        exact ⟨hm.1.symm, hm.2.symm⟩
      | some tgt =>
        rw [hsw] at hm
        simp only at hm
        cases hs : a.getCellStatus tgt.1 tgt.2 with
        | none => rw [hs] at hm; cases hm
        | some st =>
          rw [hs] at hm
          simp only at hm
          split at hm
          · simp only [Option.some.injEq, Prod.mk.injEq, true_and] at hm
            exact ⟨hm.1.symm, hm.2.symm⟩
          · simp at hm
    rw [forceMove_eq, hm]
    simp [h0, hpos.1, hpos.2]
  · intro r1 c1 hm
    refine ⟨?_, (attemptMove_true a dir _ _ r1 c1 hm).1⟩
    rw [forceMove_eq, hm]
    simp [h0]
  · intro g z1 g1 hm
    rw [move_eq] at hm
    simp only [h0, if_false] at hm
    cases hat : attemptMove a (randInt 0 (NUMDIRS - 1) g).1 z.m_row z.m_col with
    | none => rw [hat] at hm; cases hm
    | some res =>
      rw [hat] at hm
      simp only [Option.map_some', Option.some.injEq, Prod.mk.injEq] at hm
      rw [← hm.1]
  · intro z1 hm
    rw [forceMove_eq] at hm
    simp only [h0, if_false] at hm
    cases hat : attemptMove a dir z.m_row z.m_col with
    | none => rw [hat] at hm; cases hm
    | some res =>
      rw [hat] at hm
      simp only [Option.map_some', Option.some.injEq] at hm
      rw [← hm]
      split_ifs
      · exact le_refl _
      · show z.m_health - 1 ≤ z.m_health
        omega
  · intro hb
    constructor
    · rw [forceMove_eq, attemptMove_eq a dir _ _ hb]
      simp [h0]
    · intro g
      rw [move_eq, attemptMove_eq a _ _ _ hb]
      simp [h0]

/-- The theorem `zurt_health_spec` at the 1x2 arena with a wall at (1,2), for
a zurt at (1,1) with health 3 forced east: the health becomes 2 and the zurt
stays at (1,1). -/
theorem zurt_health_spec_witness :
    Zurt.forceMove { m_row := 1, m_col := 1, m_color := 'R', m_health := 3 } arenaWall12 EAST =
      some { m_row := 1, m_col := 1, m_color := 'R', m_health := 2 } :=
  (zurt_health_spec arenaWall12 { m_row := 1, m_col := 1, m_color := 'R', m_health := 3 } EAST
    (by decide)).1 1 1 (by decide)

/-- C10: `addZurt(r,c,color)` returns false and leaves the arena unchanged,
without the fatal exit, when `(r,c)` is out of bounds, or the cell is not
`EMPTY`, or the player stands on `(r,c)`, or `color` is none of 'R', 'Y', 'B',
or `zurtCount` is `MAXZURTS = 100`.  In every other case it returns true, the
arena differs only by the new zurt of the given colour and health 3 at the
end of the collection, `zurtCount` grows by 1, `numberOfZurtsAt(r,c)` grows
by 1 and `numberOfZurtsAt` of every other cell is unchanged; zurts already on
the cell do not matter. -/
theorem addZurt_spec (a : Arena) (r c : Int) (color : Char) :
    ((a.isPosInBounds r c = false ∨
        (∃ st, a.getCellStatus r c = some st ∧ st ≠ EMPTY) ∨
        (∃ p, a.m_player = some p ∧ p.m_row = r ∧ p.m_col = c) ∨
        (color ≠ 'R' ∧ color ≠ 'Y' ∧ color ≠ 'B') ∨
        a.zurtCount = 100) →
      a.addZurt r c color = some (a, false)) ∧
    (¬(a.isPosInBounds r c = false ∨
        (∃ st, a.getCellStatus r c = some st ∧ st ≠ EMPTY) ∨
        (∃ p, a.m_player = some p ∧ p.m_row = r ∧ p.m_col = c) ∨
        (color ≠ 'R' ∧ color ≠ 'Y' ∧ color ≠ 'B') ∨
        a.zurtCount = 100) →
      a.addZurt r c color =
          some ({ a with m_zurts := a.m_zurts ++
            [{ m_row := r, m_col := c, m_color := color, m_health := 3 }] }, true) ∧
        ∀ a1, a.addZurt r c color = some (a1, true) →
          a1.zurtCount = a.zurtCount + 1 ∧
          a1.numberOfZurtsAt r c = a.numberOfZurtsAt r c + 1 ∧
          ∀ r2 c2, (r2, c2) ≠ (r, c) → a1.numberOfZurtsAt r2 c2 = a.numberOfZurtsAt r2 c2) := by
  have hplayer : (match a.m_player with
      | some p => decide (p.row = r ∧ p.col = c)
      | none => false) = true ↔ ∃ p, a.m_player = some p ∧ p.m_row = r ∧ p.m_col = c := by
    cases a.m_player with
    | none => simp
    | some p => simp [Player.row, Player.col]
  constructor
  · intro hrej
    unfold Arena.addZurt
    by_cases hb : a.isPosInBounds r c = true
    · rw [getCellStatus_of_inBounds a r c hb]
      simp only [hb, Bool.not_true, Bool.false_eq_true, if_false]
      by_cases hst : a.m_grid (r - 1) (c - 1) ≠ EMPTY
      · rw [if_pos hst]
      · rw [if_neg hst]
        by_cases hpl : ∃ p, a.m_player = some p ∧ p.m_row = r ∧ p.m_col = c
        · rw [if_pos (hplayer.2 hpl)]
        · rw [if_neg (fun h => hpl (hplayer.1 h))]
          by_cases hcol : color ≠ 'R' ∧ color ≠ 'Y' ∧ color ≠ 'B'
          · rw [if_pos hcol]
          · rw [if_neg hcol]
            by_cases hcount : a.zurtCount = MAXZURTS
            · rw [if_pos hcount]
            · exfalso
              rcases hrej with h | ⟨st, h, hne⟩ | h | h | h
              · rw [hb] at h; cases h
              · rw [getCellStatus_of_inBounds a r c hb] at h
                exact hst (by rw [Option.some.inj h]; exact hne)
              · exact hpl h
              · exact hcol h
              · exact hcount h
    · have hb1 : a.isPosInBounds r c = false := by simpa using hb
      simp [hb1]
  · intro hok
    simp only [not_or] at hok
    obtain ⟨hb0, hst0, hpl, hcol, hcount⟩ := hok
    have hb : a.isPosInBounds r c = true := by simpa using hb0
    have hst : ¬ a.m_grid (r - 1) (c - 1) ≠ EMPTY := by
      intro hne
      exact hst0 ⟨_, getCellStatus_of_inBounds a r c hb, hne⟩
    have hcr : Zurt.create a r c color =
        some { m_row := r, m_col := c, m_color := color, m_health := ZURT_HEALTH } := by
      have hb2 := (isPosInBounds_iff a r c).1 hb
      unfold Zurt.create
      rw [if_neg (by simp only [Arena.rows, Arena.cols]; omega), if_neg hcol]
    have hres : a.addZurt r c color =
        some ({ a with m_zurts := a.m_zurts ++
          [{ m_row := r, m_col := c, m_color := color, m_health := 3 }] }, true) := by
      unfold Arena.addZurt
      rw [getCellStatus_of_inBounds a r c hb]
      simp only [hb, Bool.not_true, Bool.false_eq_true, if_false]
      rw [if_neg hst, if_neg (fun h => hpl (hplayer.1 h)), if_neg hcol,
        if_neg (by simpa [MAXZURTS] using hcount), hcr]
      rfl
    refine ⟨hres, ?_⟩
    intro a1 h1
    rw [hres] at h1
    simp only [Option.some.injEq, Prod.mk.injEq, and_true] at h1
    subst h1
    refine ⟨?_, ?_, ?_⟩
    · simp [Arena.zurtCount]
    · simp only [numberOfZurtsAt_eq_countP, List.countP_append]
      simp
    · intro r2 c2 hne
      simp only [numberOfZurtsAt_eq_countP, List.countP_append]
      have : ¬(r = r2 ∧ c = c2) := by
        rintro ⟨e1, e2⟩
        exact hne (by rw [e1, e2])
      simp [this]

/-- The theorem `addZurt_spec` at the 1x2 arena with one zurt at (1,2): a
second zurt is added on the same cell, and a zurt of colour 'G' is refused. -/
theorem addZurt_spec_witness :
    arenaOneZurt12.addZurt 1 2 'B' =
      some ({ arenaOneZurt12 with m_zurts := arenaOneZurt12.m_zurts ++
        [{ m_row := 1, m_col := 2, m_color := 'B', m_health := 3 }] }, true) ∧
    arenaOneZurt12.addZurt 1 1 'G' = some (arenaOneZurt12, false) :=
  ⟨((addZurt_spec arenaOneZurt12 1 2 'B').2 (by decide)).1,
   (addZurt_spec arenaOneZurt12 1 1 'G').1 (Or.inr (Or.inr (Or.inr (Or.inl (by decide)))))⟩

/-- C3: from a cell `(r,c)` of the arena `recommendMove` returns, and when it
returns true `bestDir` is a direction in which `attemptMove` from `(r,c)`
succeeds and reaches a cell of danger strictly below the danger of `(r,c)`;
when no legal direction has danger strictly below the danger of standing, in
particular when `computeDanger(r,c) = 0`, it returns false, and then `bestDir`
is left as it was. -/
theorem recommendMove_sound (a : Arena) (r c bestDir : Int)
    (hb : a.isPosInBounds r c = true) :
    ∃ b d, recommendMove a r c bestDir = some (b, d) ∧
      (b = true → isDir d ∧ ∃ r1 c1, attemptMove a d r c = some (true, r1, c1) ∧
        computeDanger a r1 c1 < computeDanger a r c) ∧
      ((∀ x, isDir x → ∀ r1 c1, attemptMove a x r c = some (true, r1, c1) →
          ¬ computeDanger a r1 c1 < computeDanger a r c) → b = false) ∧
      (computeDanger a r c = 0 → b = false) ∧
      (b = false → d = bestDir) := by
  obtain ⟨res, hres, hle, hall, hcase⟩ :=
    recommendLoop_spec a r c hb scanDirs (computeDanger a r c, NORTH)
  obtain ⟨res1, hres1, hrec⟩ := recommendMove_cases a r c bestDir hb
  rw [hres] at hres1
  obtain rfl : res = res1 := Option.some.inj hres1
  by_cases hcond : computeDanger a r c > 0 ∧ res.1 < computeDanger a r c
  · rw [if_pos hcond] at hrec
    have hne : res ≠ (computeDanger a r c, NORTH) := by
      intro e
      rw [e] at hcond
      exact lt_irrefl _ hcond.2
    rcases hcase with e | ⟨hlt, front, back, r1, c1, hsplit, hlegal, hdanger, _⟩
    · exact absurd e hne
    · have hdir : isDir res.2 := (mem_scanDirs res.2).1 (by rw [hsplit]; simp)
      refine ⟨true, res.2, hrec, fun _ => ⟨hdir, r1, c1, hlegal, by rw [hdanger]; exact hlt⟩,
        ?_, ?_, (fun hf => by cases hf)⟩
      · intro hno
        exact absurd (by rw [hdanger]; exact hlt) (hno res.2 hdir r1 c1 hlegal)
      · intro h0
        omega
  · rw [if_neg hcond] at hrec
    exact ⟨false, bestDir, hrec, (fun hf => by cases hf), fun _ => rfl, fun _ => rfl,
      fun _ => rfl⟩

/-- The theorem `recommendMove_sound` at the open 3x3 arena with a zurt at
(2,1), for the cell (2,2). -/
theorem recommendMove_sound_witness :
    arenaOpen33.isPosInBounds 2 2 = true ∧
    ∃ b d, recommendMove arenaOpen33 2 2 WEST = some (b, d) ∧
      (b = true → isDir d ∧ ∃ r1 c1, attemptMove arenaOpen33 d 2 2 = some (true, r1, c1) ∧
        computeDanger arenaOpen33 r1 c1 < computeDanger arenaOpen33 2 2) ∧
      ((∀ x, isDir x → ∀ r1 c1, attemptMove arenaOpen33 x 2 2 = some (true, r1, c1) →
          ¬ computeDanger arenaOpen33 r1 c1 < computeDanger arenaOpen33 2 2) → b = false) ∧
      (computeDanger arenaOpen33 2 2 = 0 → b = false) ∧
      (b = false → d = WEST) :=
  ⟨by decide, recommendMove_sound arenaOpen33 2 2 WEST (by decide)⟩

/-- C4: from a cell `(r,c)` of the arena, when `recommendMove` returns true
the direction it sets is a legal move whose danger is the least among the
legal moves in the four directions, and every legal move in a direction that
comes earlier in the scan order NORTH, EAST, SOUTH, WEST (the directions of
smaller value) is strictly more dangerous. -/
theorem recommendMove_first_min (a : Arena) (r c bestDir d : Int)
    (hb : a.isPosInBounds r c = true)
    (h : recommendMove a r c bestDir = some (true, d)) :
    ∃ r1 c1, attemptMove a d r c = some (true, r1, c1) ∧
      (∀ x, isDir x → ∀ r2 c2, attemptMove a x r c = some (true, r2, c2) →
        computeDanger a r1 c1 ≤ computeDanger a r2 c2) ∧
      (∀ x, isDir x → x < d → ∀ r2 c2, attemptMove a x r c = some (true, r2, c2) →
        computeDanger a r1 c1 < computeDanger a r2 c2) := by
  obtain ⟨res, hres, hle, hall, hcase⟩ :=
    recommendLoop_spec a r c hb scanDirs (computeDanger a r c, NORTH)
  obtain ⟨res1, hres1, hrec⟩ := recommendMove_cases a r c bestDir hb
  rw [hres] at hres1
  obtain rfl : res = res1 := Option.some.inj hres1
  rw [h] at hrec
  by_cases hcond : computeDanger a r c > 0 ∧ res.1 < computeDanger a r c
  · rw [if_pos hcond] at hrec
    simp only [Option.some.injEq, Prod.mk.injEq, true_and] at hrec
    have hne : res ≠ (computeDanger a r c, NORTH) := by
      intro e
      rw [e] at hcond
      exact lt_irrefl _ hcond.2
    rcases hcase with e | ⟨_, front, back, r1, c1, hsplit, hlegal, hdanger, hfront⟩
    · exact absurd e hne
    · rw [← hrec] at hsplit hlegal
      refine ⟨r1, c1, hlegal, ?_, ?_⟩
      · intro x hx r2 c2 hx2
        rw [hdanger]
        exact hall x ((mem_scanDirs x).2 hx) r2 c2 hx2
      · intro x hx hlt r2 c2 hx2
        rw [hdanger]
        exact hfront x (scanDirs_front front back d x hsplit hx hlt) r2 c2 hx2
  · rw [if_neg hcond] at hrec
    simp at hrec

/-- The theorem `recommendMove_first_min` at the open 3x3 arena with a zurt at
(2,1), for the cell (2,2): north, east and south all have danger 0, and
`recommendMove` sets the first of them, north. -/
theorem recommendMove_first_min_witness :
    recommendMove arenaOpen33 2 2 WEST = some (true, NORTH) ∧
    computeDanger arenaOpen33 1 2 = 0 ∧ computeDanger arenaOpen33 2 3 = 0 ∧
    computeDanger arenaOpen33 3 2 = 0 ∧
    ∃ r1 c1, attemptMove arenaOpen33 NORTH 2 2 = some (true, r1, c1) ∧
      (∀ x, isDir x → ∀ r2 c2, attemptMove arenaOpen33 x 2 2 = some (true, r2, c2) →
        computeDanger arenaOpen33 r1 c1 ≤ computeDanger arenaOpen33 r2 c2) ∧
      (∀ x, isDir x → x < NORTH → ∀ r2 c2,
        attemptMove arenaOpen33 x 2 2 = some (true, r2, c2) →
        computeDanger arenaOpen33 r1 c1 < computeDanger arenaOpen33 r2 c2) :=
  ⟨by decide, by decide, by decide, by decide,
    recommendMove_first_min arenaOpen33 2 2 WEST NORTH (by decide) (by decide)⟩

/-- C1: the collection after `moveZurts(color, dir)` is, as a multiset, the
collection before the call with every zurt stepped once (in the order of the
traversal, from the last slot to the first, which is the order of the random
draws) and the zurts of health 0 after their step discarded; the call ends in
the fatal exit exactly when one of these steps does.  A step is `forceMove(dir)`
when `willFollow` is true and the colour of the zurt is `color`, and `move()`
otherwise.  The call returns when every zurt stands in the arena.  (The
statement needs neither that the zurts are live nor that `dir` is one of the
four directions.) -/
theorem moveZurts_multiset (a : Arena) (color : Char) (dir : Int) (g : Rng) :
    ((a.moveZurts color dir g).map (fun res => Multiset.ofList res.1.m_zurts) =
      (stepSeq a (decide ((randInt 0 1 g).1 = 0)) color dir a.m_zurts.reverse
        (randInt 0 1 g).2).map
        (fun res => Multiset.ofList (res.1.filter (fun z => decide (z.m_health ≠ 0))))) ∧
    (∀ (willFollow : Bool) (z : Zurt) (g2 : Rng),
      stepZurt a willFollow color dir z g2 =
        if willFollow = true ∧ z.m_color = color then
          (z.forceMove a dir).map (fun z1 => (z1, g2))
        else z.move a g2) ∧
    ((∀ z ∈ a.m_zurts, a.isPosInBounds z.m_row z.m_col = true) →
      (a.moveZurts color dir g).isSome = true) := by
  obtain ⟨hn, hs⟩ := moveZurts_spec a color dir g
  have hfilter : (fun z : Zurt => !z.isDead) = (fun z => decide (z.m_health ≠ 0)) := by
    funext z
    simp [Zurt.isDead]
  refine ⟨?_, ?_, ?_⟩
  · cases hseq : stepSeq a (decide ((randInt 0 1 g).1 = 0)) color dir a.m_zurts.reverse
        (randInt 0 1 g).2 with
    | none => rw [hn hseq]; rfl
    | some res =>
      obtain ⟨stepped, g1⟩ := res
      obtain ⟨a1, msg, hm, _, _, _, _, hperm, _⟩ := hs stepped g1 hseq
      rw [hm, hfilter] at *
      simp only [Option.map_some', Option.some.injEq]
      exact Quotient.sound hperm
  · intro willFollow z g2
    unfold stepZurt
    by_cases hc : willFollow = true ∧ z.m_color = color
    · simp only [hc.1, hc.2, Zurt.color, decide_True, Bool.and_self, if_true, and_self]
      cases z.forceMove a dir <;> rfl
    · rw [if_neg hc, if_neg (by simpa [Zurt.color] using hc)]
  · intro hb
    obtain ⟨stepped, g1, hseq⟩ := stepSeq_isSome a (decide ((randInt 0 1 g).1 = 0)) color dir
      a.m_zurts.reverse (fun z hz => hb z (List.mem_reverse.1 hz)) (randInt 0 1 g).2
    obtain ⟨a1, msg, hm, _⟩ := hs stepped g1 hseq
    rw [hm]
    rfl

/-- The theorem `moveZurts_multiset` at the 1x2 arena with a wall at (1,2) and
three zurts at (1,1), of colour and health R1, Y3, R2, for the throw R towards
the east with all draws 0: the call returns, the zurt R1 is destroyed and the
zurt R2 is moved into its slot with health 1. -/
theorem moveZurts_multiset_witness :
    (∀ z ∈ arenaThreeZurts.m_zurts, arenaThreeZurts.isPosInBounds z.m_row z.m_col = true) ∧
    (arenaThreeZurts.moveZurts 'R' EAST (fun _ => 0)).isSome = true ∧
    (arenaThreeZurts.moveZurts 'R' EAST (fun _ => 0)).map (fun res => (res.1.m_zurts, res.2.1)) =
      some ([{ m_row := 1, m_col := 1, m_color := 'R', m_health := 1 },
             { m_row := 1, m_col := 1, m_color := 'Y', m_health := 3 }],
            "Some zurts have been destroyed.") :=
  ⟨by decide,
    (moveZurts_multiset arenaThreeZurts 'R' EAST (fun _ => 0)).2.2 (by decide),
    by decide⟩

/-- C6: in every reachable arena every zurt of the collection has health from
1 to `ZURT_HEALTH = 3`; a zurt is created with health 3; and every call of
`moveZurts` from a reachable arena returns and leaves no zurt of health 0 in
the collection. -/
theorem reachable_health (a : Arena) (h : Reachable a) :
    (∀ z ∈ a.m_zurts, 1 ≤ z.m_health ∧ z.m_health ≤ 3) ∧
    (∀ r c color z, Zurt.create a r c color = some z → z.m_health = 3) ∧
    (∀ color dir g, ∃ a1 msg g1, a.moveZurts color dir g = some (a1, msg, g1) ∧
      ∀ z ∈ a1.m_zurts, z.m_health ≠ 0) := by
  obtain ⟨_, _, hz, _⟩ := reachable_wf a h
  refine ⟨fun z hzm => (hz z hzm).2, ?_, ?_⟩
  · intro r c color z hcr
    unfold Zurt.create at hcr
    split_ifs at hcr
    rw [← Option.some.inj hcr]
    rfl
  · intro color dir g
    obtain ⟨stepped, g1, hseq⟩ := stepSeq_isSome a (decide ((randInt 0 1 g).1 = 0)) color dir
      a.m_zurts.reverse (fun z hzm => (hz z (List.mem_reverse.1 hzm)).1) (randInt 0 1 g).2
    obtain ⟨a1, msg, hm, _⟩ := (moveZurts_spec a color dir g).2 stepped g1 hseq
    exact ⟨a1, msg, g1, hm,
      fun z hzm => ((moveZurts_mem a a1 color dir g g1 msg hm).2.2.2.2.2 z hzm).1⟩

/-- The theorem `reachable_health` at the 1x2 arena with one zurt at (1,2),
reached by `Arena(1, 2)` and `addZurt(1, 2, 'R')`. -/
theorem reachable_health_witness :
    Reachable arenaOneZurt12 ∧ ∀ z ∈ arenaOneZurt12.m_zurts, 1 ≤ z.m_health ∧ z.m_health ≤ 3 :=
  ⟨arenaOneZurt12_reachable, (reachable_health arenaOneZurt12 arenaOneZurt12_reachable).1⟩

/-! ## What a call of `moveZurts` that returns has done -/

/-- A call of `moveZurts` that returns has stepped every zurt, from the last
slot to the first, without a fatal exit; the grid is unchanged, `hitPlayer`
has been applied for every stepped zurt, the collection holds the stepped
zurts that are not dead, and the message tells whether the collection has
shrunk. -/
theorem moveZurts_inv (a a1 : Arena) (color : Char) (dir : Int) (g g1 : Rng) (msg : String)
    (h : a.moveZurts color dir g = some (a1, msg, g1)) :
    ∃ stepped,
      stepSeq a (decide ((randInt 0 1 g).1 = 0)) color dir a.m_zurts.reverse
        (randInt 0 1 g).2 = some (stepped, g1) ∧
      a1.m_grid = a.m_grid ∧ a1.m_rows = a.m_rows ∧ a1.m_cols = a.m_cols ∧
      a1.m_player = stepped.foldl hitPlayer a.m_player ∧
      a1.m_zurts.Perm (stepped.filter (fun z => !z.isDead)) ∧
      msg = (if a1.zurtCount < a.zurtCount then "Some zurts have been destroyed."
             else "No zurts were destroyed.") := by
  obtain ⟨hn, hs⟩ := moveZurts_spec a color dir g
  cases hseq : stepSeq a (decide ((randInt 0 1 g).1 = 0)) color dir a.m_zurts.reverse
      (randInt 0 1 g).2 with
  | none => rw [hn hseq] at h; cases h
  | some res =>
    obtain ⟨stepped, g2⟩ := res
    obtain ⟨a2, msg2, hm, hg, hr, hc, hp, hz, hmsg⟩ := hs stepped g2 hseq
    rw [hm] at h
    simp only [Option.some.injEq, Prod.mk.injEq] at h
    obtain ⟨e1, e2, e3⟩ := h
    subst e1; subst e2; subst e3
    exact ⟨stepped, rfl, hg, hr, hc, hp, hz, hmsg⟩

/-- The number of zurts after `moveZurts` in terms of the stepped zurts. -/
theorem length_filter_alive (stepped : List Zurt) :
    ((stepped.filter (fun z => !z.isDead)).length : Int) =
      (stepped.length : Int) - (stepped.countP (fun z => decide (z.m_health = 0)) : Int) := by
  have h := List.length_eq_countP_add_countP (fun z : Zurt => decide (z.m_health = 0)) stepped
  have h2 : (stepped.filter (fun z => !z.isDead)).length =
      stepped.countP (fun z => decide ¬(decide (z.m_health = 0) = true)) := by
    rw [List.countP_eq_length_filter]
    congr 1
    apply List.filter_congr
    intro z _
    simp [Zurt.isDead]
  rw [h2]
  omega

/-- The health of a zurt after its step in `moveZurts`, by the value of
`willFollow` and the colour of the zurt. -/
theorem stepZurt_health (a : Arena) (wf : Bool) (color : Char) (dir : Int)
    (z z1 : Zurt) (g g1 : Rng) (h : stepZurt a wf color dir z g = some (z1, g1)) :
    (¬(wf = true ∧ z.m_color = color) → z.move a g = some (z1, g1) ∧ z1.m_health = z.m_health) ∧
    ((wf = true ∧ z.m_color = color) → z.forceMove a dir = some z1 ∧ g1 = g) := by
  unfold stepZurt at h
  constructor
  · intro hc
    rw [if_neg (by simpa [Zurt.color] using hc)] at h
    refine ⟨h, ?_⟩
    rw [move_eq] at h
    by_cases h0 : z.m_health = 0
    · simp only [h0, if_true, Option.some.injEq, Prod.mk.injEq] at h
      rw [← h.1]
    · simp only [h0, if_false] at h
      cases hat : attemptMove a (randInt 0 (NUMDIRS - 1) g).1 z.m_row z.m_col with
      | none => rw [hat] at h; cases h
      | some res =>
        rw [hat] at h
        simp only [Option.map_some', Option.some.injEq, Prod.mk.injEq] at h
        rw [← h.1]
  · intro hc
    rw [if_pos (by simpa [Zurt.color] using hc)] at h
    cases hf : z.forceMove a dir with
    | none => rw [hf] at h; cases h
    | some z2 =>
      rw [hf] at h
      simp only [Option.some.injEq, Prod.mk.injEq] at h
      rw [h.1, h.2]
      exact ⟨rfl, rfl⟩

/-- A call of `moveZurts` returns when every zurt stands in the arena. -/
theorem moveZurts_isSome (a : Arena) (color : Char) (dir : Int) (g : Rng)
    (hb : ∀ z ∈ a.m_zurts, a.isPosInBounds z.m_row z.m_col = true) :
    (a.moveZurts color dir g).isSome = true := by
  obtain ⟨stepped, g1, hseq⟩ := stepSeq_isSome a (decide ((randInt 0 1 g).1 = 0)) color dir
    a.m_zurts.reverse (fun z hz => hb z (List.mem_reverse.1 hz)) (randInt 0 1 g).2
  obtain ⟨a1, msg, hm, _⟩ := (moveZurts_spec a color dir g).2 stepped g1 hseq
  rw [hm]
  rfl

/-- C16: for an arena with a player, after `moveZurts` the player stands where
it stood, and it is dead exactly when it was dead before the call or one of
the zurts, after its own step (whether the zurt survives the call or is
destroyed in it), has the row and the column of the player; so a dead player
stays dead.  The call ends in the fatal exit exactly when a step does, and it
returns when every zurt stands in the arena. -/
theorem moveZurts_player (a : Arena) (p : Player) (color : Char) (dir : Int) (g : Rng)
    (hp : a.m_player = some p) :
    ((a.moveZurts color dir g).map (fun res => res.1.m_player) =
      (stepSeq a (decide ((randInt 0 1 g).1 = 0)) color dir a.m_zurts.reverse
        (randInt 0 1 g).2).map (fun res =>
          some { m_row := p.m_row, m_col := p.m_col,
                 m_dead := p.m_dead ||
                   res.1.any (fun z1 => decide (z1.m_row = p.m_row ∧ z1.m_col = p.m_col)) })) ∧
    ((∀ z ∈ a.m_zurts, a.isPosInBounds z.m_row z.m_col = true) →
      (a.moveZurts color dir g).isSome = true) := by
  refine ⟨?_, moveZurts_isSome a color dir g⟩
  obtain ⟨hn, hs⟩ := moveZurts_spec a color dir g
  cases hseq : stepSeq a (decide ((randInt 0 1 g).1 = 0)) color dir a.m_zurts.reverse
      (randInt 0 1 g).2 with
  | none => rw [hn hseq]; rfl
  | some res =>
    obtain ⟨stepped, g1⟩ := res
    obtain ⟨a1, msg, hm, _, _, _, hpl, _, _⟩ := hs stepped g1 hseq
    rw [hm]
    simp only [Option.map_some', Option.some.injEq]
    rw [hpl, foldl_hitPlayer, hp]
    rfl

/-- The theorem `moveZurts_player` at the open 3x3 arena with the player at
(2,2) and a zurt of colour R at (2,1), for the throw R towards the east with
all draws 0: the zurt steps onto (2,2) and the player is dead. -/
theorem moveZurts_player_witness :
    arenaOpen33.m_player = some { m_row := 2, m_col := 2, m_dead := false } ∧
    (arenaOpen33.moveZurts 'R' EAST (fun _ => 0)).map (fun res => res.1.m_player) =
      some (some { m_row := 2, m_col := 2, m_dead := true }) :=
  ⟨rfl, ((moveZurts_player arenaOpen33 { m_row := 2, m_col := 2, m_dead := false } 'R' EAST
    (fun _ => 0) rfl).1).trans (by decide)⟩

/-- A relation that holds pair by pair, together with a property of every
element of the first list. -/
theorem forall₂_and_left {R : Zurt → Zurt → Prop} {P : Zurt → Prop} {zs zs1 : List Zurt}
    (h : List.Forall₂ R zs zs1) (hP : ∀ z ∈ zs, P z) :
    List.Forall₂ (fun z z1 => P z ∧ R z z1) zs zs1 := by
  induction h with
  | nil => exact List.Forall₂.nil
  | cons hhead _ ih =>
    exact List.Forall₂.cons ⟨hP _ (List.mem_cons_self _ _), hhead⟩
      (ih (fun z hz => hP z (List.mem_cons_of_mem _ hz)))

/-- The zurts before `moveZurts` and after their steps, pair by pair: the
health is kept or lowered by one. -/
theorem stepSeq_health (a : Arena) (wf : Bool) (color : Char) (dir : Int)
    (zs zs1 : List Zurt) (g g1 : Rng) (h : stepSeq a wf color dir zs g = some (zs1, g1)) :
    List.Forall₂ (fun z z1 => z1.m_color = z.m_color ∧
      (z1.m_health = z.m_health ∨ (z.m_health ≠ 0 ∧ z1.m_health = z.m_health - 1)) ∧
      (¬(wf = true ∧ z.m_color = color) → z1.m_health = z.m_health)) zs zs1 := by
  refine List.Forall₂.imp ?_ (stepSeq_forall₂ a wf color dir zs g zs1 g1 h)
  rintro z z1 ⟨g2, g3, hst⟩
  obtain ⟨hcol, hh, _⟩ := stepZurt_facts a wf color dir z z1 g2 g3 hst
  exact ⟨hcol, hh, fun hc => ((stepZurt_health a wf color dir z z1 g2 g3 hst).1 hc).2⟩

/-- C17: for an arena holding only live zurts, a call of `moveZurts` that
returns gives "Some zurts have been destroyed." exactly when the health of at
least one zurt is 0 after its step (each such zurt had health 1 before the
call), which is exactly when `zurtCount` is smaller than before, and gives "No
zurts were destroyed." otherwise; `zurtCount` after the call is `zurtCount`
before it minus the number of zurts of health 0 after their step.  The call
returns when every zurt stands in the arena. -/
theorem moveZurts_message (a : Arena) (color : Char) (dir : Int) (g : Rng)
    (hlive : ∀ z ∈ a.m_zurts, z.m_health > 0) :
    (∀ a1 msg g1, a.moveZurts color dir g = some (a1, msg, g1) →
      ∃ stepped,
        stepSeq a (decide ((randInt 0 1 g).1 = 0)) color dir a.m_zurts.reverse
          (randInt 0 1 g).2 = some (stepped, g1) ∧
        List.Forall₂ (fun z z1 => z.m_health > 0 ∧ (z1.m_health = 0 → z.m_health = 1))
          a.m_zurts.reverse stepped ∧
        a1.zurtCount = a.zurtCount - stepped.countP (fun z1 => decide (z1.m_health = 0)) ∧
        (msg = "Some zurts have been destroyed." ↔ ∃ z1 ∈ stepped, z1.m_health = 0) ∧
        (msg = "Some zurts have been destroyed." ↔ a1.zurtCount < a.zurtCount) ∧
        (msg = "No zurts were destroyed." ↔ ¬ ∃ z1 ∈ stepped, z1.m_health = 0)) ∧
    ((∀ z ∈ a.m_zurts, a.isPosInBounds z.m_row z.m_col = true) →
      (a.moveZurts color dir g).isSome = true) := by
  refine ⟨?_, moveZurts_isSome a color dir g⟩
  intro a1 msg g1 h
  obtain ⟨stepped, hseq, _, _, _, _, hperm, hmsg⟩ := moveZurts_inv a a1 color dir g g1 msg h
  have hcount : a1.zurtCount =
      a.zurtCount - stepped.countP (fun z1 => decide (z1.m_health = 0)) := by
    have hlen := stepSeq_length a _ color dir _ _ _ _ hseq
    rw [List.length_reverse] at hlen
    unfold Arena.zurtCount
    rw [hperm.length_eq, length_filter_alive, hlen]
  have hpos : (0 < stepped.countP (fun z1 => decide (z1.m_health = 0))) ↔
      ∃ z1 ∈ stepped, z1.m_health = 0 := by
    rw [List.countP_pos_iff]
    simp
  have hlt : a1.zurtCount < a.zurtCount ↔ ∃ z1 ∈ stepped, z1.m_health = 0 := by
    rw [← hpos, hcount]
    omega
  have hne : "Some zurts have been destroyed." ≠ "No zurts were destroyed." := by decide
  refine ⟨stepped, hseq, ?_, hcount, ?_, ?_, ?_⟩
  · refine List.Forall₂.imp ?_ (forall₂_and_left (stepSeq_health a _ color dir _ _ _ _ hseq)
      (fun z hz => hlive z (List.mem_reverse.1 hz)))
    rintro z z1 ⟨hz, _, hh, _⟩
    exact ⟨hz, fun h0 => by omega⟩
  · rw [hmsg, ← hlt]
    by_cases hc : a1.zurtCount < a.zurtCount
    · simp [hc]
    · simp only [hc, if_false, iff_false]
      exact fun e => hne e.symm
  · rw [hmsg]
    by_cases hc : a1.zurtCount < a.zurtCount
    · simp [hc]
    · simp only [hc, if_false, iff_false]
      exact fun e => hne e.symm
  · rw [hmsg, ← hlt]
    by_cases hc : a1.zurtCount < a.zurtCount
    · simp only [hc, if_true, not_true, iff_false]
      exact hne
    · simp [hc]

/-- The theorem `moveZurts_message` at the 1x2 arena with a wall at (1,2) and
three live zurts at (1,1), for the throw R towards the east with all draws 0:
one zurt is destroyed. -/
theorem moveZurts_message_witness :
    (∀ z ∈ arenaThreeZurts.m_zurts, z.m_health > 0) ∧
    (∀ z ∈ arenaThreeZurts.m_zurts, arenaThreeZurts.isPosInBounds z.m_row z.m_col = true) ∧
    (arenaThreeZurts.moveZurts 'R' EAST (fun _ => 0)).isSome = true ∧
    (arenaThreeZurts.moveZurts 'R' EAST (fun _ => 0)).map
        (fun res => (res.1.zurtCount, res.2.1)) =
      some (2, "Some zurts have been destroyed.") :=
  ⟨by decide, by decide,
    (moveZurts_message arenaThreeZurts 'R' EAST (fun _ => 0) (by decide)).2 (by decide),
    by decide⟩

/-- C18: `moveZurts` draws `willFollow` once, before the traversal, and steps
every zurt with that one value: when it is true a zurt of the thrown colour
makes a forced move in the given direction and every other zurt makes a random
move, when it is false every zurt makes a random move.  A zurt whose colour
differs from the thrown colour keeps its health, and when `willFollow` is
false every zurt keeps its health; then, in an arena holding only live zurts,
no zurt is destroyed, `zurtCount` is unchanged and the result is "No zurts were
destroyed.".  The call returns when every zurt stands in the arena. -/
theorem moveZurts_willFollow (a : Arena) (color : Char) (dir : Int) (g : Rng) :
    (∀ a1 msg g1, a.moveZurts color dir g = some (a1, msg, g1) →
      ∃ stepped,
        stepSeq a (decide ((randInt 0 1 g).1 = 0)) color dir a.m_zurts.reverse
          (randInt 0 1 g).2 = some (stepped, g1) ∧
        a1.m_zurts.Perm (stepped.filter (fun z => decide (z.m_health ≠ 0))) ∧
        List.Forall₂ (fun z z1 =>
            (if (randInt 0 1 g).1 = 0 ∧ z.m_color = color then z.forceMove a dir = some z1
             else ∃ g2 g3, z.move a g2 = some (z1, g3)) ∧
            (z.m_color ≠ color → z1.m_health = z.m_health) ∧
            ((randInt 0 1 g).1 ≠ 0 → z1.m_health = z.m_health))
          a.m_zurts.reverse stepped ∧
        ((randInt 0 1 g).1 ≠ 0 → (∀ z ∈ a.m_zurts, z.m_health > 0) →
          a1.m_zurts.Perm stepped ∧ a1.zurtCount = a.zurtCount ∧
          msg = "No zurts were destroyed.")) ∧
    ((∀ z ∈ a.m_zurts, a.isPosInBounds z.m_row z.m_col = true) →
      (a.moveZurts color dir g).isSome = true) := by
  refine ⟨?_, moveZurts_isSome a color dir g⟩
  intro a1 msg g1 h
  obtain ⟨stepped, hseq, _, _, _, _, hperm, hmsg⟩ := moveZurts_inv a a1 color dir g g1 msg h
  have hfilter : (fun z : Zurt => !z.isDead) = (fun z => decide (z.m_health ≠ 0)) := by
    funext z
    simp [Zurt.isDead]
  rw [hfilter] at hperm
  have hpairs := stepSeq_forall₂ a _ color dir _ _ _ _ hseq
  have hkeep : (randInt 0 1 g).1 ≠ 0 → (∀ z ∈ a.m_zurts, z.m_health > 0) →
      ∀ z1 ∈ stepped, z1.m_health ≠ 0 := by
    intro hwf hlive z1 hz1
    obtain ⟨z, hzm, g2, g3, hst⟩ := stepSeq_mem a _ color dir _ _ _ _ hseq z1 hz1
    have hz := hlive z (List.mem_reverse.1 hzm)
    have := ((stepZurt_health a _ color dir z z1 g2 g3 hst).1 (by simp [hwf])).2
    omega
  refine ⟨stepped, hseq, hperm, ?_, ?_⟩
  · refine List.Forall₂.imp ?_ hpairs
    rintro z z1 ⟨g2, g3, hst⟩
    obtain ⟨hmove, hforce⟩ := stepZurt_health a _ color dir z z1 g2 g3 hst
    refine ⟨?_, ?_, ?_⟩
    · by_cases hc : (randInt 0 1 g).1 = 0 ∧ z.m_color = color
      · rw [if_pos hc]
        exact (hforce (by simpa using hc)).1
      · rw [if_neg hc]
        exact ⟨g2, g3, (hmove (by simpa using hc)).1⟩
    · intro hcol
      exact (hmove (fun hc => hcol hc.2)).2
    · intro hwf
      exact (hmove (by simp [hwf])).2
  · intro hwf hlive
    have hall : stepped.filter (fun z => decide (z.m_health ≠ 0)) = stepped := by
      rw [List.filter_eq_self]
      intro z1 hz1
      simpa using hkeep hwf hlive z1 hz1
    rw [hall] at hperm
    have hlen : a1.zurtCount = a.zurtCount := by
      have hl := stepSeq_length a _ color dir _ _ _ _ hseq
      rw [List.length_reverse] at hl
      unfold Arena.zurtCount
      rw [hperm.length_eq, hl]
    refine ⟨hperm, hlen, ?_⟩
    rw [hmsg, hlen]
    simp

/-- The theorem `moveZurts_willFollow` at the 1x2 arena with a wall at (1,2)
and three zurts at (1,1), for the throw R towards the east when the first draw
is 1 (`willFollow` false) and the other draws are 0: every zurt is kept with
its health. -/
theorem moveZurts_willFollow_witness :
    (∀ z ∈ arenaThreeZurts.m_zurts, arenaThreeZurts.isPosInBounds z.m_row z.m_col = true) ∧
    (arenaThreeZurts.moveZurts 'R' EAST (fun n => if n = 0 then 1 else 0)).isSome = true ∧
    (arenaThreeZurts.moveZurts 'R' EAST (fun n => if n = 0 then 1 else 0)).map
        (fun res => (res.1.m_zurts, res.2.1)) =
      some (arenaThreeZurts.m_zurts, "No zurts were destroyed.") :=
  ⟨by decide,
    (moveZurts_willFollow arenaThreeZurts 'R' EAST (fun n => if n = 0 then 1 else 0)).2
      (by decide),
    by decide⟩

/-! ## The capacity of the collection -/

/-- With `MAXZURTS` zurts in the collection `addZurt` returns false and
changes nothing. -/
theorem addZurt_full (a : Arena) (r c : Int) (color : Char) (hfull : a.zurtCount = MAXZURTS) :
    a.addZurt r c color = some (a, false) := by
  unfold Arena.addZurt
  by_cases hb : a.isPosInBounds r c = true
  · rw [getCellStatus_of_inBounds a r c hb]
    simp only [hb, Bool.not_true, Bool.false_eq_true, if_false, hfull, if_true]
    split_ifs <;> rfl
  · have hb1 : a.isPosInBounds r c = false := by simpa using hb
    simp [hb1]

theorem arenaFilled_addZurt (n : Nat) (hn : n < 100) :
    (arenaFilled n).addZurt 1 1 'R' = some (arenaFilled (n + 1), true) := by
  have hb : (arenaFilled n).isPosInBounds 1 1 = true := rfl
  have hcount : ¬ (arenaFilled n).zurtCount = MAXZURTS := by
    simp only [Arena.zurtCount, arenaFilled, List.length_replicate, MAXZURTS]
    omega
  have hcr : Zurt.create (arenaFilled n) 1 1 'R' =
      some { m_row := 1, m_col := 1, m_color := 'R', m_health := 3 } := rfl
  unfold Arena.addZurt
  rw [getCellStatus_of_inBounds _ 1 1 hb]
  simp only [hb, Bool.not_true, Bool.false_eq_true, if_false, hcount, hcr]
  have hgrid : ¬ (arenaFilled n).m_grid (1 - 1) (1 - 1) ≠ EMPTY := fun h => h rfl
  have hpl : (arenaFilled n).m_player = none := rfl
  rw [if_neg hgrid, hpl]
  simp only [Bool.false_eq_true, if_false]
  rw [if_neg (by decide)]
  simp only [arenaFilled, List.replicate_succ']
  rfl

theorem arenaFilled_reachable (n : Nat) (hn : n ≤ 100) : Reachable (arenaFilled n) := by
  induction n with
  | zero => exact Reachable.construct 1 2 (fun _ _ => 7) _ arenaFresh12_created
  | succ n ih =>
    exact Reachable.addZurt (arenaFilled n) (arenaFilled (n + 1)) 1 1 'R' true
      (ih (by omega)) (arenaFilled_addZurt n (by omega))

/-- C11: `zurtCount` is at most `MAXZURTS = 100` in every reachable arena, and
for every arena holding 100 zurts and every `(r, c, color)`, `addZurt` returns
false and leaves the arena, so also `zurtCount`, as it is. -/
theorem zurtCount_le_max (a : Arena) :
    (Reachable a → a.zurtCount ≤ 100) ∧
    (a.zurtCount = 100 → ∀ r c color, a.addZurt r c color = some (a, false)) :=
  ⟨fun h => (reachable_wf a h).2.1, fun hfull r c color => addZurt_full a r c color hfull⟩

/-- The theorem `zurtCount_le_max` at the 1x2 arena after 100 successful calls
`addZurt(1, 1, 'R')`: the arena is reachable and holds 100 zurts, and the
101st call returns false and changes nothing. -/
theorem zurtCount_le_max_witness :
    Reachable (arenaFilled 100) ∧ (arenaFilled 100).zurtCount = 100 ∧
    (arenaFilled 99).addZurt 1 1 'R' = some (arenaFilled 100, true) ∧
    (arenaFilled 100).addZurt 1 1 'R' = some (arenaFilled 100, false) :=
  ⟨arenaFilled_reachable 100 (le_refl _), by decide, arenaFilled_addZurt 99 (by decide),
    (zurtCount_le_max (arenaFilled 100)).2 (by decide) 1 1 'R'⟩

/-- C12: `addPlayer(r,c)` returns false and leaves the arena unchanged,
without the fatal exit, when a player already exists, or `(r,c)` is out of
bounds, or the cell is not `EMPTY`, or `numberOfZurtsAt(r,c) > 0`.  In every
other case it returns true and the arena differs only by its player, which
stands at `(r,c)` and is not dead. -/
theorem addPlayer_spec (a : Arena) (r c : Int) :
    ((a.m_player ≠ none ∨
        a.isPosInBounds r c = false ∨
        (∃ st, a.getCellStatus r c = some st ∧ st ≠ EMPTY) ∨
        a.numberOfZurtsAt r c > 0) →
      a.addPlayer r c = some (a, false)) ∧
    (¬(a.m_player ≠ none ∨
        a.isPosInBounds r c = false ∨
        (∃ st, a.getCellStatus r c = some st ∧ st ≠ EMPTY) ∨
        a.numberOfZurtsAt r c > 0) →
      a.addPlayer r c =
        some ({ a with m_player := some { m_row := r, m_col := c, m_dead := false } }, true)) := by
  constructor
  · intro hrej
    unfold Arena.addPlayer
    by_cases hpl : a.m_player.isSome = true
    · rw [if_pos hpl]
    · rw [if_neg hpl]
      by_cases hb : a.isPosInBounds r c = true
      · rw [getCellStatus_of_inBounds a r c hb]
        simp only [hb, Bool.not_true, Bool.false_eq_true, if_false]
        by_cases hst : a.m_grid (r - 1) (c - 1) ≠ EMPTY
        · rw [if_pos hst]
        · rw [if_neg hst]
          by_cases hz : a.numberOfZurtsAt r c > 0
          · rw [if_pos hz]
          · exfalso
            rcases hrej with h | h | ⟨st, h, hne⟩ | h
            · exact hpl (Option.isSome_iff_ne_none.2 h)
            · rw [hb] at h; cases h
            · rw [getCellStatus_of_inBounds a r c hb] at h
              exact hst (by rw [Option.some.inj h]; exact hne)
            · exact hz h
      · have hb1 : a.isPosInBounds r c = false := by simpa using hb
        simp [hb1]
  · intro hok
    simp only [not_or] at hok
    obtain ⟨hpl0, hb0, hst0, hz⟩ := hok
    have hpl : ¬ a.m_player.isSome = true := by
      intro h
      exact hpl0 (Option.isSome_iff_ne_none.1 h)
    have hb : a.isPosInBounds r c = true := by simpa using hb0
    have hst : ¬ a.m_grid (r - 1) (c - 1) ≠ EMPTY := by
      intro hne
      exact hst0 ⟨_, getCellStatus_of_inBounds a r c hb, hne⟩
    have hcr : Player.create a r c = some { m_row := r, m_col := c, m_dead := false } := by
      have hb2 := (isPosInBounds_iff a r c).1 hb
      unfold Player.create
      rw [if_neg (by simp only [Arena.rows, Arena.cols]; omega)]
    unfold Arena.addPlayer
    rw [if_neg hpl, getCellStatus_of_inBounds a r c hb]
    simp only [hb, Bool.not_true, Bool.false_eq_true, if_false]
    rw [if_neg hst, if_neg hz, hcr]

/-- The theorem `addPlayer_spec` at the 1x2 arena with one zurt at (1,2): the
player is added at (1,1) and refused at (1,2), where the zurt stands. -/
theorem addPlayer_spec_witness :
    arenaOneZurt12.addPlayer 1 1 =
      some ({ arenaOneZurt12 with
        m_player := some { m_row := 1, m_col := 1, m_dead := false } }, true) ∧
    arenaOneZurt12.addPlayer 1 2 = some (arenaOneZurt12, false) :=
  ⟨(addPlayer_spec arenaOneZurt12 1 1).2 (by decide),
   (addPlayer_spec arenaOneZurt12 1 2).1 (Or.inr (Or.inr (Or.inr (by decide))))⟩

/-! ## The grid -/

theorem mem_intRange (lo hi x : Int) : x ∈ intRange lo hi ↔ lo ≤ x ∧ x ≤ hi := by
  unfold intRange
  simp only [List.mem_map, List.mem_range]
  constructor
  · rintro ⟨k, hk, rfl⟩
    omega
  · rintro ⟨h1, h2⟩
    exact ⟨(x - lo).toNat, by omega, by omega⟩

theorem setCellStatus_eq (a : Arena) (r c status : Int) (hb : a.isPosInBounds r c = true) :
    a.setCellStatus r c status =
      some { a with
        m_grid := fun i j => if i = r - 1 ∧ j = c - 1 then status else a.m_grid i j } := by
  simp [Arena.setCellStatus, Arena.checkPos, hb]

/-- The inner loop of the constructor: the cells `(r,c)` with `c` in the list
get the status, the other cells keep theirs. -/
theorem setRow_spec (r status : Int) (l : List Int) : ∀ a : Arena,
    (∀ c ∈ l, a.isPosInBounds r c = true) →
    ∃ a1, l.foldlM (fun a c => a.setCellStatus r c status) a = some a1 ∧
      a1.m_rows = a.m_rows ∧ a1.m_cols = a.m_cols ∧
      ∀ i j, a1.m_grid i j =
        if i = r - 1 ∧ ∃ c ∈ l, j = c - 1 then status else a.m_grid i j := by
  induction l with
  | nil =>
    intro a _
    exact ⟨a, rfl, rfl, rfl, fun i j => by simp⟩
  | cons c l ih =>
    intro a hb
    have hc := hb c (List.mem_cons_self _ _)
    obtain ⟨a1, hfold, hr, hcl, hgrid⟩ := ih
      { a with m_grid := fun i j => if i = r - 1 ∧ j = c - 1 then status else a.m_grid i j }
      (fun c2 hc2 => hb c2 (List.mem_cons_of_mem _ hc2))
    refine ⟨a1, ?_, hr, hcl, ?_⟩
    · rw [List.foldlM_cons, setCellStatus_eq a r c status hc]
      exact hfold
    · intro i j
      rw [hgrid]
      by_cases h1 : i = r - 1 ∧ ∃ c2 ∈ l, j = c2 - 1
      · have h2 : i = r - 1 ∧ ∃ c2 ∈ c :: l, j = c2 - 1 := by
          obtain ⟨e, c2, hc2, e2⟩ := h1
          exact ⟨e, c2, List.mem_cons_of_mem _ hc2, e2⟩
        rw [if_pos h1, if_pos h2]
      · rw [if_neg h1]
        by_cases h3 : i = r - 1 ∧ j = c - 1
        · have h2 : i = r - 1 ∧ ∃ c2 ∈ c :: l, j = c2 - 1 :=
            ⟨h3.1, c, List.mem_cons_self _ _, h3.2⟩
          show (if i = r - 1 ∧ j = c - 1 then status else a.m_grid i j) = _
          rw [if_pos h3, if_pos h2]
        · have h2 : ¬(i = r - 1 ∧ ∃ c2 ∈ c :: l, j = c2 - 1) := by
            rintro ⟨e, c2, hc2, e2⟩
            rcases List.mem_cons.1 hc2 with e3 | hm
            · exact h3 ⟨e, by rw [e2, e3]⟩
            · exact h1 ⟨e, c2, hm, e2⟩
          show (if i = r - 1 ∧ j = c - 1 then status else a.m_grid i j) = _
          rw [if_neg h2, if_neg h3]

/-- The two nested loops of the constructor: the cells `(r,c)` with `r` in the
list and `1 ≤ c ≤ m_cols` get the status `EMPTY`, the other cells keep
theirs. -/
theorem setAll_spec (rs : List Int) : ∀ a : Arena,
    (∀ r ∈ rs, 1 ≤ r ∧ r ≤ a.m_rows) →
    ∃ a1, rs.foldlM (fun a r =>
        (intRange 1 a.m_cols).foldlM (fun a c => a.setCellStatus r c EMPTY) a) a = some a1 ∧
      a1.m_rows = a.m_rows ∧ a1.m_cols = a.m_cols ∧
      ∀ i j, a1.m_grid i j =
        if (∃ r ∈ rs, i = r - 1) ∧ (1 ≤ j + 1 ∧ j + 1 ≤ a.m_cols) then EMPTY
        else a.m_grid i j := by
  induction rs with
  | nil =>
    intro a _
    exact ⟨a, rfl, rfl, rfl, fun i j => by simp⟩
  | cons r rs ih =>
    intro a hb
    have hr := hb r (List.mem_cons_self _ _)
    obtain ⟨a2, hrow, hr2, hc2, hg2⟩ := setRow_spec r EMPTY (intRange 1 a.m_cols) a
      (fun c hc => by
        rw [mem_intRange] at hc
        rw [isPosInBounds_iff]
        omega)
    obtain ⟨a1, hfold, hr1, hc1, hg1⟩ := ih a2
      (fun r3 hr3 => by rw [hr2]; exact hb r3 (List.mem_cons_of_mem _ hr3))
    refine ⟨a1, ?_, hr1.trans hr2, hc1.trans hc2, ?_⟩
    · rw [List.foldlM_cons, hrow]
      exact hfold
    · intro i j
      rw [hg1, hg2, hc2]
      have hmem : (∃ c ∈ intRange 1 a.m_cols, j = c - 1) ↔ (1 ≤ j + 1 ∧ j + 1 ≤ a.m_cols) := by
        constructor
        · rintro ⟨c, hc, rfl⟩
          rw [mem_intRange] at hc
          omega
        · intro h
          exact ⟨j + 1, (mem_intRange _ _ _).2 h, by omega⟩
      simp only [hmem]
      by_cases hj : 1 ≤ j + 1 ∧ j + 1 ≤ a.m_cols
      · by_cases hi2 : ∃ r3 ∈ rs, i = r3 - 1
        · have h2 : ∃ r3 ∈ r :: rs, i = r3 - 1 := by
            obtain ⟨r3, hr3, e⟩ := hi2
            exact ⟨r3, List.mem_cons_of_mem _ hr3, e⟩
          rw [if_pos ⟨hi2, hj⟩, if_pos ⟨h2, hj⟩]
        · by_cases hi : i = r - 1
          · have h2 : ∃ r3 ∈ r :: rs, i = r3 - 1 := ⟨r, List.mem_cons_self _ _, hi⟩
            rw [if_neg (fun h => hi2 h.1), if_pos ⟨hi, hj⟩, if_pos ⟨h2, hj⟩]
          · have h2 : ¬ ∃ r3 ∈ r :: rs, i = r3 - 1 := by
              rintro ⟨r3, hr3, e⟩
              rcases List.mem_cons.1 hr3 with e3 | hm
              · exact hi (by rw [e, e3])
              · exact hi2 ⟨r3, hm, e⟩
            rw [if_neg (fun h => hi2 h.1), if_neg (fun h => hi h.1), if_neg (fun h => h2 h.1)]
      · rw [if_neg (fun h => hj h.2), if_neg (fun h => hj h.2), if_neg (fun h => hj h.2)]

/-- The constructor returns for a legal size, and then every cell of the
arena is `EMPTY`, there is no player and there are no zurts. -/
theorem create_spec (nRows nCols : Int) (uninit : Int → Int → Int)
    (hsize : 1 ≤ nRows ∧ nRows ≤ MAXROWS ∧ 1 ≤ nCols ∧ nCols ≤ MAXCOLS) :
    ∃ a, Arena.create nRows nCols uninit = some a ∧
      a.m_rows = nRows ∧ a.m_cols = nCols ∧ a.m_player = none ∧ a.m_zurts = [] ∧
      ∀ r c, a.isPosInBounds r c = true → a.getCellStatus r c = some EMPTY := by
  obtain ⟨a1, hfold, hr, hc, hg⟩ := setAll_spec (intRange 1 nRows)
    { m_grid := uninit, m_rows := nRows, m_cols := nCols, m_player := none, m_zurts := [] }
    (fun r hr => (mem_intRange _ _ _).1 hr)
  have hcreate : Arena.create nRows nCols uninit = some a1 := by
    unfold Arena.create
    rw [if_neg (by omega)]
    exact hfold
  obtain ⟨_, h1, h2, h3, h4⟩ := create_frame nRows nCols uninit a1 hcreate
  refine ⟨a1, hcreate, h1, h2, h3, h4, ?_⟩
  intro r c hb
  rw [getCellStatus_of_inBounds a1 r c hb, hg]
  rw [isPosInBounds_iff, h1, h2] at hb
  rw [if_pos]
  exact ⟨⟨r, (mem_intRange _ _ _).2 ⟨hb.1, hb.2.1⟩, rfl⟩, by simp only; omega⟩

/-- C13: for an in-bounds `(r,c)`, `setCellStatus(r,c,status)` returns, and
afterwards `getCellStatus(r,c)` returns the status that was set (so `WALL`
after `WALL` was set), `getCellStatus` of every other cell is as before, and
`rows`, `cols`, the player and the zurt collection are as before; and the
constructor, for a legal size, returns an arena of which every cell is
`EMPTY`. -/
theorem setCellStatus_spec (a : Arena) (r c status : Int) (hb : a.isPosInBounds r c = true) :
    (∃ a1, a.setCellStatus r c status = some a1 ∧
      a1.getCellStatus r c = some status ∧
      (∀ r2 c2, (r2, c2) ≠ (r, c) → a1.getCellStatus r2 c2 = a.getCellStatus r2 c2) ∧
      a1.m_rows = a.m_rows ∧ a1.m_cols = a.m_cols ∧ a1.m_player = a.m_player ∧
      a1.m_zurts = a.m_zurts) ∧
    (∀ nRows nCols uninit,
      1 ≤ nRows ∧ nRows ≤ MAXROWS ∧ 1 ≤ nCols ∧ nCols ≤ MAXCOLS →
      ∃ a0, Arena.create nRows nCols uninit = some a0 ∧
        ∀ r2 c2, a0.isPosInBounds r2 c2 = true → a0.getCellStatus r2 c2 = some EMPTY) := by
  constructor
  · refine ⟨_, setCellStatus_eq a r c status hb, ?_, ?_, rfl, rfl, rfl, rfl⟩
    · rw [getCellStatus_of_inBounds _ r c (by simpa only [Arena.isPosInBounds] using hb)]
      simp
    · intro r2 c2 hne
      have hcell : ¬(r2 - 1 = r - 1 ∧ c2 - 1 = c - 1) := by
        rintro ⟨e1, e2⟩
        exact hne (by rw [show r2 = r by omega, show c2 = c by omega])
      simp only [Arena.getCellStatus, Arena.checkPos, Arena.isPosInBounds, hcell, if_false]
  · intro nRows nCols uninit hsize
    obtain ⟨a0, hcr, _, _, _, _, hempty⟩ := create_spec nRows nCols uninit hsize
    exact ⟨a0, hcr, hempty⟩

/-- The theorem `setCellStatus_spec` at the fresh 1x2 arena: after
`setCellStatus(1, 2, WALL)` the cell (1,2) is a wall and the cell (1,1) is
still empty. -/
theorem setCellStatus_spec_witness :
    arenaFresh12.isPosInBounds 1 2 = true ∧
    ∃ a1, arenaFresh12.setCellStatus 1 2 WALL = some a1 ∧
      a1.getCellStatus 1 2 = some WALL ∧ a1.getCellStatus 1 1 = some EMPTY := by
  obtain ⟨a1, hset, hget, hother, _⟩ := (setCellStatus_spec arenaFresh12 1 2 WALL (by decide)).1
  exact ⟨by decide, a1, hset, hget, (hother 1 1 (by decide)).trans (by decide)⟩

/-! ## Walls, zurts and the player -/

/-- A successful `addZurt` was for an empty cell of the arena on which the
player does not stand. -/
theorem addZurt_true (a a1 : Arena) (r c : Int) (color : Char)
    (h : a.addZurt r c color = some (a1, true)) :
    a.m_grid (r - 1) (c - 1) = EMPTY ∧
      ∀ p, a.m_player = some p → ¬(p.m_row = r ∧ p.m_col = c) := by
  unfold Arena.addZurt at h
  split at h
  · simp at h
  · rename_i hb0
    have hb : a.isPosInBounds r c = true := by simpa using hb0
    rw [getCellStatus_of_inBounds a r c hb] at h
    simp only at h
    split at h
    · simp at h
    · rename_i hst
      split at h
      · simp at h
      · rename_i hpl
        refine ⟨by simpa using hst, ?_⟩
        intro p hp hat
        apply hpl
        rw [hp]
        simpa [Player.row, Player.col] using hat

/-- A successful `addPlayer` was for an empty cell of the arena without zurts,
in an arena without a player. -/
theorem addPlayer_true (a a1 : Arena) (r c : Int)
    (h : a.addPlayer r c = some (a1, true)) :
    a.m_grid (r - 1) (c - 1) = EMPTY ∧ a.numberOfZurtsAt r c = 0 := by
  unfold Arena.addPlayer at h
  split at h
  · simp at h
  · split at h
    · simp at h
    · rename_i hb0
      have hb : a.isPosInBounds r c = true := by simpa using hb0
      rw [getCellStatus_of_inBounds a r c hb] at h
      simp only at h
      split at h
      · simp at h
      · rename_i hst
        split at h
        · simp at h
        · rename_i hz
          have := numberOfZurtsAt_nonneg a r c
          exact ⟨by simpa using hst, by omega⟩

/-- A failed `attemptMove` leaves the position as it was. -/
theorem attemptMove_false (a : Arena) (dir r c r1 c1 : Int)
    (h : attemptMove a dir r c = some (false, r1, c1)) : r1 = r ∧ c1 = c := by
  unfold attemptMove at h
  cases hsw : switchDir a dir r c with
  | none =>
    rw [hsw] at h
    simp only [Option.some.injEq, Prod.mk.injEq, true_and] at h
    exact ⟨h.1.symm, h.2.symm⟩
  | some tgt =>
    rw [hsw] at h
    simp only at h
    cases hs : a.getCellStatus tgt.1 tgt.2 with
    | none => rw [hs] at h; cases h
    | some st =>
      rw [hs] at h
      simp only at h
      split at h
      · simp only [Option.some.injEq, Prod.mk.injEq, true_and] at h
        exact ⟨h.1.symm, h.2.symm⟩
      · simp at h

/-- The player after `Player::move`: unchanged, or on the cell of a successful
`attemptMove`, and then not dead only if not dead before and no zurt stands on
that cell. -/
theorem playerMove_cases (p p1 : Player) (a : Arena) (dir : Int) (msg : String)
    (h : p.move a dir = some (p1, msg)) :
    p1 = p ∨
    ∃ r1 c1, attemptMove a dir p.m_row p.m_col = some (true, r1, c1) ∧
      p1.m_row = r1 ∧ p1.m_col = c1 ∧
      (p1.m_dead = false → a.numberOfZurtsAt r1 c1 = 0) := by
  unfold Player.move at h
  cases hm : attemptMove a dir p.m_row p.m_col with
  | none => rw [hm] at h; cases h
  | some res =>
    obtain ⟨b, r, c⟩ := res
    rw [hm] at h
    cases b
    · left
      obtain ⟨e1, e2⟩ := attemptMove_false a dir _ _ r c hm
      simp only [Option.some.injEq, Prod.mk.injEq] at h
      rw [← h.1, e1, e2]
    · right
      refine ⟨r, c, rfl, ?_⟩
      simp only at h
      split at h
      · simp only [Option.some.injEq, Prod.mk.injEq] at h
        rw [← h.1]
        exact ⟨rfl, rfl, fun hd => by simp [Player.setDead] at hd⟩
      · rename_i hz
        simp only [Option.some.injEq, Prod.mk.injEq] at h
        rw [← h.1]
        have := numberOfZurtsAt_nonneg a r c
        exact ⟨rfl, rfl, fun _ => by omega⟩

/-- The cell of a zurt after its step: the cell before it, or the cell of a
successful `attemptMove` from there. -/
theorem stepZurt_cell (a : Arena) (wf : Bool) (color : Char) (dir : Int)
    (z z1 : Zurt) (g g1 : Rng) (h : stepZurt a wf color dir z g = some (z1, g1)) :
    (z1.m_row = z.m_row ∧ z1.m_col = z.m_col) ∨
    ∃ d, attemptMove a d z.m_row z.m_col = some (true, z1.m_row, z1.m_col) := by
  have key : ∀ d b r c, attemptMove a d z.m_row z.m_col = some (b, r, c) →
      (r = z.m_row ∧ c = z.m_col) ∨
        ∃ d, attemptMove a d z.m_row z.m_col = some (true, r, c) := by
    intro d b r c hm
    cases b
    · exact Or.inl (attemptMove_false a d _ _ r c hm)
    · exact Or.inr ⟨d, hm⟩
  unfold stepZurt at h
  split at h
  · rw [forceMove_eq] at h
    by_cases h0 : z.m_health = 0
    · simp only [h0, if_true, Option.some.injEq, Prod.mk.injEq] at h
      rw [← h.1]
      exact Or.inl ⟨rfl, rfl⟩
    · simp only [h0, if_false] at h
      cases hm : attemptMove a dir z.m_row z.m_col with
      | none => rw [hm] at h; cases h
      | some res =>
        obtain ⟨b, r, c⟩ := res
        rw [hm] at h
        have hk := key dir b r c hm
        simp only [Option.map_some', Option.some.injEq, Prod.mk.injEq] at h
        rw [← h.1]
        split_ifs <;> exact hk
  · rw [move_eq] at h
    by_cases h0 : z.m_health = 0
    · simp only [h0, if_true, Option.some.injEq, Prod.mk.injEq] at h
      rw [← h.1]
      exact Or.inl ⟨rfl, rfl⟩
    · simp only [h0, if_false] at h
      cases hm : attemptMove a (randInt 0 (NUMDIRS - 1) g).1 z.m_row z.m_col with
      | none => rw [hm] at h; cases h
      | some res =>
        obtain ⟨b, r, c⟩ := res
        rw [hm] at h
        have hk := key _ b r c hm
        simp only [Option.map_some', Option.some.injEq, Prod.mk.injEq] at h
        rw [← h.1]
        exact hk

theorem numberOfZurtsAt_eq_zero (a : Arena) (r c : Int) (h : a.numberOfZurtsAt r c = 0) :
    ∀ z ∈ a.m_zurts, ¬(z.m_row = r ∧ z.m_col = c) := by
  rw [numberOfZurtsAt_eq_countP] at h
  have h0 : a.m_zurts.countP (fun z => decide (z.m_row = r ∧ z.m_col = c)) = 0 := by
    exact_mod_cast h
  rw [List.countP_eq_zero] at h0
  intro z hz
  simpa using h0 z hz

theorem numberOfZurtsAt_zero_of (a : Arena) (r c : Int)
    (h : ∀ z ∈ a.m_zurts, ¬(z.m_row = r ∧ z.m_col = c)) : a.numberOfZurtsAt r c = 0 := by
  rw [numberOfZurtsAt_eq_countP]
  have h0 : a.m_zurts.countP (fun z => decide (z.m_row = r ∧ z.m_col = c)) = 0 := by
    rw [List.countP_eq_zero]
    intro z hz
    simpa using h z hz
  rw [h0]
  rfl

/-- Without walls put under a zurt or the player, nobody stands on a wall. -/
theorem guarded_noneOnWall (a : Arena) (h : ReachableGuarded a) : a.noneOnWall := by
  induction h with
  | construct nRows nCols uninit a hc =>
    obtain ⟨_, _, _, h3, h4⟩ := create_frame nRows nCols uninit a hc
    constructor
    · intro z hz; rw [h4] at hz; cases hz
    · intro p hp; rw [h3] at hp; cases hp
  | setCellStatus a a1 r c status _ hguard hs ih =>
    have hb : a.isPosInBounds r c = true := by
      cases hbb : a.isPosInBounds r c with
      | true => rfl
      | false => simp [Arena.setCellStatus, Arena.checkPos, hbb] at hs
    rw [setCellStatus_eq a r c status hb] at hs
    simp only [Option.some.injEq] at hs
    subst hs
    obtain ⟨hz, hp⟩ := ih
    constructor
    · intro z hzm
      refine ⟨(hz z hzm).1, ?_⟩
      show (if z.m_row - 1 = r - 1 ∧ z.m_col - 1 = c - 1 then status
        else a.m_grid (z.m_row - 1) (z.m_col - 1)) ≠ WALL
      by_cases hcell : z.m_row - 1 = r - 1 ∧ z.m_col - 1 = c - 1
      · rw [if_pos hcell]
        intro hw
        exact numberOfZurtsAt_eq_zero a r c (hguard hw).1 z hzm ⟨by omega, by omega⟩
      · rw [if_neg hcell]
        exact (hz z hzm).2
    · intro p hpp
      refine ⟨(hp p hpp).1, ?_⟩
      show (if p.m_row - 1 = r - 1 ∧ p.m_col - 1 = c - 1 then status
        else a.m_grid (p.m_row - 1) (p.m_col - 1)) ≠ WALL
      by_cases hcell : p.m_row - 1 = r - 1 ∧ p.m_col - 1 = c - 1
      · rw [if_pos hcell]
        intro hw
        exact (hguard hw).2 p hpp ⟨by omega, by omega⟩
      · rw [if_neg hcell]
        exact (hp p hpp).2
  | addZurt a a1 r c color b _ hs ih =>
    rcases addZurt_cases a a1 r c color b hs with ⟨e, _⟩ | ⟨hbt, hb, _, e⟩
    · rw [e]; exact ih
    · subst hbt
      have hempty := (addZurt_true a a1 r c color hs).1
      subst e
      obtain ⟨hz, hp⟩ := ih
      refine ⟨?_, hp⟩
      intro z hzm
      rcases List.mem_append.1 hzm with hm | hm
      · exact hz z hm
      · rw [List.mem_singleton] at hm
        subst hm
        exact ⟨hb, by show a.m_grid (r - 1) (c - 1) ≠ WALL; rw [hempty]; decide⟩
  | addPlayer a a1 r c b _ hs ih =>
    rcases addPlayer_cases a a1 r c b hs with ⟨e, _⟩ | ⟨hbt, hb, e⟩
    · rw [e]; exact ih
    · subst hbt
      have hempty := (addPlayer_true a a1 r c hs).1
      subst e
      obtain ⟨hz, _⟩ := ih
      refine ⟨hz, ?_⟩
      intro p hp
      simp only [Option.some.injEq] at hp
      rw [← hp]
      exact ⟨hb, by show a.m_grid (r - 1) (c - 1) ≠ WALL; rw [hempty]; decide⟩
  | playerMove a p p1 dir msg _ hp hm ih =>
    obtain ⟨hz, hpl⟩ := ih
    refine ⟨hz, ?_⟩
    intro q hq
    simp only [Option.some.injEq] at hq
    rw [← hq]
    rcases playerMove_cases p p1 a dir msg hm with e | ⟨r1, c1, hat, e1, e2, _⟩
    · rw [e]; exact hpl p hp
    · obtain ⟨_, hin, hw⟩ := attemptMove_true a dir _ _ r1 c1 hat
      rw [e1, e2]
      exact ⟨hin, hw⟩
  | playerStand a p _ hp ih =>
    obtain ⟨hz, hpl⟩ := ih
    refine ⟨hz, ?_⟩
    intro q hq
    simp only [Option.some.injEq, Player.stand] at hq
    rw [← hq]
    exact hpl p hp
  | moveZurts a a1 color dir g g1 msg _ hm ih =>
    obtain ⟨hg, hr, hc, hp, _, hz⟩ := moveZurts_mem a a1 color dir g g1 msg hm
    obtain ⟨ihz, ihp⟩ := ih
    constructor
    · intro z1 hz1
      obtain ⟨_, z, hzm, wf, g2, g3, hst⟩ := hz z1 hz1
      simp only [Arena.isPosInBounds, hg, hr, hc]
      rcases stepZurt_cell a wf color dir z z1 g2 g3 hst with ⟨e1, e2⟩ | ⟨d, hat⟩
      · rw [e1, e2]
        exact ihz z hzm
      · obtain ⟨_, hin, hw⟩ := attemptMove_true a d _ _ _ _ hat
        exact ⟨hin, hw⟩
    · intro p1 hp1
      obtain ⟨p, hpp, e1, e2⟩ := hp p1 hp1
      simp only [Arena.isPosInBounds, hg, hr, hc, e1, e2]
      exact ihp p hpp

theorem guarded_reachable (a : Arena) (h : ReachableGuarded a) : Reachable a := by
  induction h with
  | construct nRows nCols uninit a hc => exact Reachable.construct nRows nCols uninit a hc
  | setCellStatus a a1 r c status _ _ hs ih => exact Reachable.setCellStatus a a1 r c status ih hs
  | addZurt a a1 r c color b _ hs ih => exact Reachable.addZurt a a1 r c color b ih hs
  | addPlayer a a1 r c b _ hs ih => exact Reachable.addPlayer a a1 r c b ih hs
  | playerMove a p p1 dir msg _ hp hm ih => exact Reachable.playerMove a p p1 dir msg ih hp hm
  | playerStand a p _ hp ih => exact Reachable.playerStand a p ih hp
  | moveZurts a a1 color dir g g1 msg _ hm ih =>
    exact Reachable.moveZurts a a1 color dir g g1 msg ih hm

theorem arenaZurtOnWall_set :
    arenaOneZurt12.setCellStatus 1 2 WALL = some arenaZurtOnWall := rfl

theorem arenaWallBeside_set :
    arenaOneZurt12.setCellStatus 1 1 WALL = some arenaWallBeside := rfl

theorem arenaWallBeside_guarded : ReachableGuarded arenaWallBeside :=
  ReachableGuarded.setCellStatus arenaOneZurt12 arenaWallBeside 1 1 WALL
    (ReachableGuarded.addZurt arenaFresh12 arenaOneZurt12 1 2 'R' true
      (ReachableGuarded.construct 1 2 (fun _ _ => 7) arenaFresh12 arenaFresh12_created)
      arenaOneZurt12_added)
    (fun _ => ⟨by decide, fun p hp => by cases hp⟩) arenaWallBeside_set

/-- C14, as stated, fails: after `Arena(1, 2)`, `addZurt(1, 2, 'R')` and
`setCellStatus(1, 2, WALL)` the arena is reachable and its zurt stands on the
cell (1,2), whose status is `WALL`. -/
theorem zurt_on_wall_reachable :
    Reachable arenaZurtOnWall ∧
    ∃ z ∈ arenaZurtOnWall.m_zurts, arenaZurtOnWall.getCellStatus z.m_row z.m_col = some WALL :=
  ⟨Reachable.setCellStatus arenaOneZurt12 arenaZurtOnWall 1 2 WALL arenaOneZurt12_reachable
      arenaZurtOnWall_set,
    { m_row := 1, m_col := 2, m_color := 'R', m_health := 3 }, by decide, by decide⟩

/-- C14, amended: in every arena state reachable from construction by the
public operations, when `setCellStatus` is called with the status `WALL` only
for cells on which no zurt and no player stands, every zurt of the collection
and the player stand on a cell whose status is not `WALL`. -/
theorem guarded_none_on_wall (a : Arena) (h : ReachableGuarded a) :
    (∀ z ∈ a.m_zurts, ∃ st, a.getCellStatus z.m_row z.m_col = some st ∧ st ≠ WALL) ∧
    (∀ p, a.m_player = some p →
      ∃ st, a.getCellStatus p.m_row p.m_col = some st ∧ st ≠ WALL) := by
  obtain ⟨hz, hp⟩ := guarded_noneOnWall a h
  constructor
  · intro z hzm
    exact ⟨_, getCellStatus_of_inBounds a _ _ (hz z hzm).1, (hz z hzm).2⟩
  · intro p hpp
    exact ⟨_, getCellStatus_of_inBounds a _ _ (hp p hpp).1, (hp p hpp).2⟩

/-- The theorem `guarded_none_on_wall` at the 1x2 arena with a zurt at (1,2)
after `setCellStatus(1, 1, WALL)`: the wall is beside the zurt, and the zurt
stands on an empty cell. -/
theorem guarded_none_on_wall_witness :
    ReachableGuarded arenaWallBeside ∧
    arenaWallBeside.getCellStatus 1 1 = some WALL ∧
    ∀ z ∈ arenaWallBeside.m_zurts,
      ∃ st, arenaWallBeside.getCellStatus z.m_row z.m_col = some st ∧ st ≠ WALL :=
  ⟨arenaWallBeside_guarded, by decide,
    (guarded_none_on_wall arenaWallBeside arenaWallBeside_guarded).1⟩

/-! ## The player and the zurts on one cell -/

/-- In every reachable arena a player that is not dead shares its cell with
no zurt. -/
theorem reachable_aliveApart (a : Arena) (h : Reachable a) : a.aliveApart := by
  induction h with
  | construct nRows nCols uninit a hc =>
    obtain ⟨_, _, _, h3, _⟩ := create_frame nRows nCols uninit a hc
    intro p hp
    rw [h3] at hp
    cases hp
  | setCellStatus a a1 r c status _ hs ih =>
    obtain ⟨_, _, h3, h4⟩ := setCellStatus_frame a a1 r c status hs
    intro p hp hd
    rw [h3] at hp
    have := ih p hp hd
    simpa only [Arena.numberOfZurtsAt, h4] using this
  | addZurt a a1 r c color b _ hs ih =>
    rcases addZurt_cases a a1 r c color b hs with ⟨e, _⟩ | ⟨hbt, _, _, e⟩
    · rw [e]; exact ih
    · subst hbt
      have hnot := (addZurt_true a a1 r c color hs).2
      subst e
      intro p hp hd
      have hp0 : a.m_player = some p := hp
      apply numberOfZurtsAt_zero_of
      intro z hzm
      rcases List.mem_append.1 hzm with hm | hm
      · exact numberOfZurtsAt_eq_zero a _ _ (ih p hp0 hd) z hm
      · rw [List.mem_singleton] at hm
        subst hm
        intro hat
        exact hnot p hp0 ⟨hat.1.symm, hat.2.symm⟩
  | addPlayer a a1 r c b _ hs ih =>
    rcases addPlayer_cases a a1 r c b hs with ⟨e, _⟩ | ⟨hbt, _, e⟩
    · rw [e]; exact ih
    · subst hbt
      have hzero := (addPlayer_true a a1 r c hs).2
      subst e
      intro p hp _
      simp only [Option.some.injEq] at hp
      rw [← hp]
      exact hzero
  | playerMove a p p1 dir msg _ hp hm ih =>
    intro q hq hd
    simp only [Option.some.injEq] at hq
    subst hq
    rcases playerMove_cases p p1 a dir msg hm with e | ⟨r1, c1, _, e1, e2, hz⟩
    · rw [e] at hd ⊢
      exact ih p hp hd
    · rw [e1, e2]
      exact hz hd
  | playerStand a p _ hp ih =>
    intro q hq hd
    simp only [Option.some.injEq, Player.stand] at hq
    subst hq
    exact ih p hp hd
  | moveZurts a a1 color dir g g1 msg _ hm ih =>
    obtain ⟨stepped, _, _, _, _, hpl, hperm, _⟩ := moveZurts_inv a a1 color dir g g1 msg hm
    intro p1 hp1 hd
    rw [hpl, foldl_hitPlayer] at hp1
    cases hp : a.m_player with
    | none => rw [hp] at hp1; cases hp1
    | some p =>
      rw [hp] at hp1
      simp only [Option.map_some', Option.some.injEq] at hp1
      subst hp1
      simp only [Bool.or_eq_false_iff] at hd
      obtain ⟨_, hany⟩ := hd
      apply numberOfZurtsAt_zero_of
      intro z1 hz1
      have hin : z1 ∈ stepped := (List.mem_filter.1 ((hperm.mem_iff).1 hz1)).1
      intro hat
      have : stepped.any (fun z => decide (z.m_row = p.m_row ∧ z.m_col = p.m_col)) = true :=
        List.any_eq_true.2 ⟨z1, hin, by simpa using hat⟩
      rw [hany] at this
      cases this

/-- C15: in every reachable arena, if the player exists and is not dead then
`numberOfZurtsAt(player.row, player.col) = 0`; so a player that shares its
cell with a zurt is dead. -/
theorem reachable_player_apart (a : Arena) (h : Reachable a) (p : Player)
    (hp : a.m_player = some p) :
    (p.m_dead = false → a.numberOfZurtsAt p.m_row p.m_col = 0) ∧
    (a.numberOfZurtsAt p.m_row p.m_col > 0 → p.m_dead = true) := by
  have hinv := reachable_aliveApart a h p hp
  refine ⟨hinv, fun hz => ?_⟩
  cases hd : p.m_dead with
  | true => rfl
  | false =>
    have := hinv hd
    omega

theorem arenaWithPlayer12_added :
    arenaOneZurt12.addPlayer 1 1 = some (arenaWithPlayer12, true) := rfl

theorem arenaWithPlayer12_reachable : Reachable arenaWithPlayer12 :=
  Reachable.addPlayer arenaOneZurt12 arenaWithPlayer12 1 1 true arenaOneZurt12_reachable
    arenaWithPlayer12_added

theorem arenaPlayerHit_moved :
    arenaWithPlayer12.moveZurts 'R' WEST (fun _ => 0) =
      some (arenaPlayerHit, "No zurts were destroyed.", (randInt 0 1 (fun _ => 0)).2) := rfl

theorem arenaPlayerHit_reachable : Reachable arenaPlayerHit :=
  Reachable.moveZurts arenaWithPlayer12 arenaPlayerHit 'R' WEST (fun _ => 0) _ _
    arenaWithPlayer12_reachable arenaPlayerHit_moved

/-- The theorem `reachable_player_apart` at two reachable 1x2 arenas: with the
player at (1,1) and the zurt at (1,2) the player is not dead and no zurt is on
its cell; after the zurt has stepped onto (1,1) the player is dead. -/
theorem reachable_player_apart_witness :
    (Reachable arenaWithPlayer12 ∧
      arenaWithPlayer12.m_player = some { m_row := 1, m_col := 1, m_dead := false } ∧
      arenaWithPlayer12.numberOfZurtsAt 1 1 = 0) ∧
    (Reachable arenaPlayerHit ∧
      arenaPlayerHit.m_player = some { m_row := 1, m_col := 1, m_dead := true } ∧
      arenaPlayerHit.numberOfZurtsAt 1 1 = 1) :=
  ⟨⟨arenaWithPlayer12_reachable, rfl,
      (reachable_player_apart arenaWithPlayer12 arenaWithPlayer12_reachable
        { m_row := 1, m_col := 1, m_dead := false } rfl).1 rfl⟩,
    ⟨arenaPlayerHit_reachable, rfl, by decide⟩⟩

/-! ## The recommended move and the zurts -/

/-- A recommended direction is a legal move to a cell of strictly smaller
danger. -/
theorem recommendMove_true (a : Arena) (r c bestDir d : Int)
    (hb : a.isPosInBounds r c = true)
    (h : recommendMove a r c bestDir = some (true, d)) :
    isDir d ∧ ∃ r1 c1, attemptMove a d r c = some (true, r1, c1) ∧
      computeDanger a r1 c1 < computeDanger a r c := by
  obtain ⟨res, hres, _, _, hcase⟩ :=
    recommendLoop_spec a r c hb scanDirs (computeDanger a r c, NORTH)
  obtain ⟨res1, hres1, hrec⟩ := recommendMove_cases a r c bestDir hb
  rw [hres] at hres1
  obtain rfl : res = res1 := Option.some.inj hres1
  rw [h] at hrec
  by_cases hcond : computeDanger a r c > 0 ∧ res.1 < computeDanger a r c
  · rw [if_pos hcond] at hrec
    simp only [Option.some.injEq, Prod.mk.injEq, true_and] at hrec
    rcases hcase with e | ⟨hlt, front, back, r1, c1, hsplit, hlegal, hdanger, _⟩
    · rw [e] at hcond
      exact absurd hcond.2 (lt_irrefl _)
    · rw [← hrec] at hsplit hlegal
      exact ⟨(mem_scanDirs d).1 (by rw [hsplit]; simp), r1, c1, hlegal,
        by rw [hdanger]; exact hlt⟩
  · rw [if_neg hcond] at hrec
    simp at hrec

/-- With at most `MAXZURTS` zurts the danger of a cell is at most
`MAXZURTS + 1`. -/
theorem computeDanger_le (a : Arena) (hcount : a.zurtCount ≤ MAXZURTS) (r c : Int) :
    computeDanger a r c ≤ 101 := by
  by_cases hz : a.numberOfZurtsAt r c > 0
  · unfold computeDanger
    rw [if_pos hz]
    decide
  · have := (computeDanger_gt_iff a hcount r c).not.2 hz
    omega

/-- C19: in an arena with at most `MAXZURTS = 100` zurts, as every reachable
arena is, and for a cell `(r,c)` of the arena, a direction that `recommendMove`
recommends is a legal move to a cell on which no zurt stands; so a player at
`(r,c)` who takes the recommended move arrives there with its dead flag
unchanged and the outcome "Player moved" followed by the direction. -/
theorem recommendMove_avoids_zurts (a : Arena) (r c bestDir d : Int)
    (hcount : a.zurtCount ≤ MAXZURTS) (hb : a.isPosInBounds r c = true)
    (h : recommendMove a r c bestDir = some (true, d)) :
    ∃ r1 c1, attemptMove a d r c = some (true, r1, c1) ∧
      (r1, c1) = adjacent d r c ∧
      a.numberOfZurtsAt r1 c1 = 0 ∧
      ∀ dead, Player.move { m_row := r, m_col := c, m_dead := dead } a d =
        some ({ m_row := r1, m_col := c1, m_dead := dead },
          "Player moved " ++ dirName d ++ ".") := by
  obtain ⟨_, r1, c1, hlegal, hlt⟩ := recommendMove_true a r c bestDir d hb h
  have hzero : a.numberOfZurtsAt r1 c1 = 0 := by
    have hnn := numberOfZurtsAt_nonneg a r1 c1
    by_contra hne
    have hpos : a.numberOfZurtsAt r1 c1 > 0 := by omega
    have h1 := (computeDanger_gt_iff a hcount r1 c1).2 hpos
    have h2 := computeDanger_le a hcount r c
    omega
  refine ⟨r1, c1, hlegal, (attemptMove_true a d r c r1 c1 hlegal).1, hzero, ?_⟩
  intro dead
  unfold Player.move
  simp only [hlegal, hzero, gt_iff_lt, lt_self_iff_false, if_false]

/-- The theorem `recommendMove_avoids_zurts` at the open 3x3 arena with a zurt
at (2,1), for the cell (2,2): the danger of standing is 1, `recommendMove`
returns true with the direction north, not west, and the cell (1,2) reached
has danger 0 and holds no zurt. -/
theorem recommendMove_avoids_zurts_witness :
    arenaOpen33.zurtCount ≤ MAXZURTS ∧ arenaOpen33.isPosInBounds 2 2 = true ∧
    computeDanger arenaOpen33 2 2 = 1 ∧
    recommendMove arenaOpen33 2 2 WEST = some (true, NORTH) ∧ NORTH ≠ WEST ∧
    computeDanger arenaOpen33 1 2 = 0 ∧
    ∃ r1 c1, attemptMove arenaOpen33 NORTH 2 2 = some (true, r1, c1) ∧
      (r1, c1) = adjacent NORTH 2 2 ∧
      arenaOpen33.numberOfZurtsAt r1 c1 = 0 ∧
      ∀ dead, Player.move { m_row := 2, m_col := 2, m_dead := dead } arenaOpen33 NORTH =
        some ({ m_row := r1, m_col := c1, m_dead := dead },
          "Player moved " ++ dirName NORTH ++ ".") :=
  ⟨by decide, by decide, by decide, by decide, by decide, by decide,
    recommendMove_avoids_zurts arenaOpen33 2 2 WEST NORTH (by decide) (by decide) (by decide)⟩

/-! ## Positions in bounds -/

/-- A position in the arena is counted on exactly one cell of the arena. -/
theorem sum_indicator (R C zr zc : Int) (h : 1 ≤ zr ∧ zr ≤ R ∧ 1 ≤ zc ∧ zc ≤ C) :
    (∑ r ∈ Finset.Icc 1 R, ∑ c ∈ Finset.Icc 1 C,
      (if zr = r ∧ zc = c then (1 : Int) else 0)) = 1 := by
  have h1 : zr ∈ Finset.Icc 1 R := Finset.mem_Icc.2 ⟨h.1, h.2.1⟩
  have h2 : zc ∈ Finset.Icc 1 C := Finset.mem_Icc.2 ⟨h.2.2.1, h.2.2.2⟩
  have inner : ∀ r : Int, (∑ c ∈ Finset.Icc 1 C, (if zr = r ∧ zc = c then (1 : Int) else 0))
      = if zr = r then 1 else 0 := by
    intro r
    by_cases hr : zr = r
    · simp only [hr, true_and, Finset.sum_ite_eq, h2, if_true]
    · simp only [hr, false_and, if_false, Finset.sum_const_zero]
  simp only [inner, Finset.sum_ite_eq, h1, if_true]

theorem sum_countP (R C : Int) (zs : List Zurt)
    (h : ∀ z ∈ zs, 1 ≤ z.m_row ∧ z.m_row ≤ R ∧ 1 ≤ z.m_col ∧ z.m_col ≤ C) :
    (∑ r ∈ Finset.Icc 1 R, ∑ c ∈ Finset.Icc 1 C,
      ((zs.countP (fun z => decide (z.m_row = r ∧ z.m_col = c)) : Nat) : Int)) = zs.length := by
  induction zs with
  | nil => simp
  | cons z zs ih =>
    have hz := h z (List.mem_cons_self _ _)
    have ih1 := ih (fun y hy => h y (List.mem_cons_of_mem _ hy))
    have hsplit : ∀ r c : Int,
        (((z :: zs).countP (fun z => decide (z.m_row = r ∧ z.m_col = c)) : Nat) : Int) =
        ((zs.countP (fun z => decide (z.m_row = r ∧ z.m_col = c)) : Nat) : Int) +
          (if z.m_row = r ∧ z.m_col = c then (1 : Int) else 0) := by
      intro r c
      rw [List.countP_cons]
      by_cases hc : z.m_row = r ∧ z.m_col = c
      · simp [hc]
      · simp [hc]
    simp only [hsplit, Finset.sum_add_distrib, ih1, sum_indicator R C z.m_row z.m_col hz,
      List.length_cons]
    push_cast
    ring

/-- When every zurt stands in the arena, `zurtCount` is the sum of
`numberOfZurtsAt` over the cells of the arena. -/
theorem zurtCount_eq_cellSum (a : Arena)
    (hz : ∀ z ∈ a.m_zurts, a.isPosInBounds z.m_row z.m_col = true) :
    a.zurtCount = cellSum a := by
  unfold cellSum Arena.zurtCount
  simp only [numberOfZurtsAt_eq_countP]
  rw [sum_countP a.m_rows a.m_cols a.m_zurts
    (fun z hzm => (isPosInBounds_iff a _ _).1 (hz z hzm))]

/-- A player standing in the arena moves without the fatal exit. -/
theorem playerMove_isSome (a : Arena) (p : Player) (dir : Int)
    (hb : a.isPosInBounds p.m_row p.m_col = true) : (p.move a dir).isSome = true := by
  unfold Player.move
  rw [attemptMove_eq a dir _ _ hb]
  by_cases hP : a.isPosInBounds (adjacent dir p.m_row p.m_col).1
        (adjacent dir p.m_row p.m_col).2 = true ∧
      a.m_grid ((adjacent dir p.m_row p.m_col).1 - 1)
        ((adjacent dir p.m_row p.m_col).2 - 1) ≠ WALL
  · rw [if_pos hP]
    simp only
    split_ifs <;> rfl
  · rw [if_neg hP]
    rfl

/-- C20: in every reachable arena the player, if any, and every zurt of the
collection have `1 ≤ row ≤ rows` and `1 ≤ col ≤ cols`; so no call of
`Player::move` and no call of `moveZurts` from a reachable arena ends in the
fatal exit, and `zurtCount` is the sum of `numberOfZurtsAt` over all cells of
the arena. -/
theorem reachable_in_bounds (a : Arena) (h : Reachable a) :
    (∀ z ∈ a.m_zurts,
      1 ≤ z.m_row ∧ z.m_row ≤ a.rows ∧ 1 ≤ z.m_col ∧ z.m_col ≤ a.cols) ∧
    (∀ p, a.m_player = some p →
      1 ≤ p.m_row ∧ p.m_row ≤ a.rows ∧ 1 ≤ p.m_col ∧ p.m_col ≤ a.cols) ∧
    (∀ p dir, a.m_player = some p → (p.move a dir).isSome = true) ∧
    (∀ color dir g, (a.moveZurts color dir g).isSome = true) ∧
    a.zurtCount = cellSum a := by
  obtain ⟨_, _, hz, hp⟩ := reachable_wf a h
  have hzb : ∀ z ∈ a.m_zurts, a.isPosInBounds z.m_row z.m_col = true :=
    fun z hzm => (hz z hzm).1
  refine ⟨fun z hzm => (isPosInBounds_iff a _ _).1 (hzb z hzm),
    fun p hpp => (isPosInBounds_iff a _ _).1 (hp p hpp),
    fun p dir hpp => playerMove_isSome a p dir (hp p hpp),
    fun color dir g => moveZurts_isSome a color dir g hzb,
    zurtCount_eq_cellSum a hzb⟩

/-- The theorem `reachable_in_bounds` at the reachable 1x2 arena in which the
zurt has stepped onto the cell (1,1) of the player: one zurt, counted on the
cell (1,1). -/
theorem reachable_in_bounds_witness :
    Reachable arenaPlayerHit ∧ arenaPlayerHit.zurtCount = 1 ∧ cellSum arenaPlayerHit = 1 ∧
    (∀ z ∈ arenaPlayerHit.m_zurts,
      1 ≤ z.m_row ∧ z.m_row ≤ arenaPlayerHit.rows ∧
        1 ≤ z.m_col ∧ z.m_col ≤ arenaPlayerHit.cols) ∧
    (∀ color dir g, (arenaPlayerHit.moveZurts color dir g).isSome = true) :=
  ⟨arenaPlayerHit_reachable, by decide,
    ((reachable_in_bounds arenaPlayerHit arenaPlayerHit_reachable).2.2.2.2).symm.trans
      (by decide),
    (reachable_in_bounds arenaPlayerHit arenaPlayerHit_reachable).1,
    (reachable_in_bounds arenaPlayerHit arenaPlayerHit_reachable).2.2.2.1⟩

end Zurts
